import Mathlib

/-!
Verification of the pbjs protobuf codec generator (src/js.ts).

The source is a code generator: `generate(schema)` emits, for each enum, an
encode map and a decode map, and for each message, an `encode`/`decode`
function pair over the Protocol Buffers binary wire format.  This file is a
shallow embedding of

* the generator-level logic found directly in src/js.ts (the `packed`
  validation, the `packableTypes` set, the wire-type switch, the enum table
  construction with prefix normalization), and
* the runtime behavior of the generated JavaScript (the per-field encode
  emission of lines 130-224, the decode state machine of lines 226-326, the
  helper functions `pushTemporaryLength`, `skipUnknownField` and the
  required-field check), interpreted over explicit byte lists.

The generated code delegates primitive reads/writes to the external
`bytebuffer` library, which is not part of this repository; those primitives
(varint read/write, little-endian fixed-width read/write, buffer limit
bookkeeping) are modelled from the specification and are marked
`Modelled from the spec:` in their doc comments.  Machine integers are
represented as `Nat`/`Int` with explicit `% 2 ^ 32` / `% 2 ^ 64` reductions
where the JavaScript runtime wraps.
-/

/-! ## Schema data model (input contract of `generate`, src/js.ts lines 11-13,
    protocol-buffers-schema shape) -/

/-- The `options` mapping of a field descriptor, restricted to the only entry
the generator reads: the tri-state `packed` option (`some "true"`,
`some "false"` or unset, src/js.ts lines 124 and 136). -/
structure FieldOptions where
  packed : Option String := none
deriving Repr, DecidableEq

/-- One field descriptor of a message definition (name, type reference, tag,
cardinality flags, options), as consumed by `generate`. -/
structure FieldDef where
  name : String
  type : String
  tag : Nat
  required : Bool := false
  repeated : Bool := false
  options : FieldOptions := {}
deriving Repr, DecidableEq

/-- One enum definition: a name and the ordered mapping from symbolic value
names to their non-negative integer values (src/js.ts lines 93-119). -/
structure EnumDef where
  name : String
  values : List (String × Nat)
deriving Repr, DecidableEq

/-- One message definition: a name and an ordered field list. -/
structure MessageDef where
  name : String
  fields : List FieldDef
deriving Repr, DecidableEq

/-- A whole schema: ordered enum definitions and message definitions. -/
structure Schema where
  enums : List EnumDef := []
  messages : List MessageDef := []
deriving Repr, DecidableEq

/-- The 15 scalar type keywords the generated code dispatches on
(src/js.ts lines 146-167 / 249-264). -/
def scalarTypeNames : List String :=
  ["bool", "bytes", "double", "fixed32", "fixed64", "float", "int32", "int64",
   "sfixed32", "sfixed64", "sint32", "sint64", "string", "uint32", "uint64"]

/-- The `packableTypes` table of src/js.ts lines 18-32, extended with every
declared enum name exactly as line 118 (`packableTypes[def.name] = true`)
does before the table is consulted. -/
def packableTypes (s : Schema) : List String :=
  ["bool", "double", "fixed32", "fixed64", "float", "int32", "int64",
   "sfixed32", "sfixed64", "sint32", "sint64", "uint32", "uint64"]
  ++ s.enums.map (·.name)

/-- Whether a type name falls through to the embedded-message default of the
type switch: neither a scalar keyword case (lines 146-167) nor a declared
enum (`field.type in enums`, lines 170 and 267). -/
def isMessageType (s : Schema) (ty : String) : Bool :=
  !(scalarTypeNames.contains ty) && !((s.enums.map (·.name)).contains ty)

/-- The wire type the generator assigns to a declared type: the `type`
variable of the encode switch, src/js.ts lines 146-180, with
`TYPE_VAR_INT = 0`, `TYPE_SIZE_8 = 1`, `TYPE_SIZE_N = 2`, `TYPE_SIZE_4 = 5`
(lines 34-37). -/
def wireTypeOf (s : Schema) (ty : String) : Nat :=
  match ty with
  | "bool" => 0
  | "bytes" => 2
  | "double" => 1
  | "fixed32" => 5
  | "fixed64" => 1
  | "float" => 5
  | "int32" => 0
  | "int64" => 0
  | "sfixed32" => 5
  | "sfixed64" => 1
  | "sint32" => 0
  | "sint64" => 0
  | "uint32" => 0
  | "uint64" => 0
  | "string" => 2
  | other => if (s.enums.map (·.name)).contains other then 0 else 2

/-! ## JavaScript-side values

The generated code manipulates untyped JavaScript values; `JsVal` is the
closed variant of everything the generated encode reads and the generated
decode produces.  Numeric values (including the 64-bit `Long`s produced by
`coerceLong`, src/js.ts lines 78-82) are carried as `Int`.
Modelled from the spec: string values are carried as their UTF-8 byte
sequences (the external `writeUTF8String`/`readUTF8String` transcoder is the
identity on this representation), and floating-point `double`/`float` values
are carried as their IEEE-754 bit patterns, since the spec fixes their wire
behavior to a "direct little-endian write/read of the fixed byte width; no
further transform". -/
inductive JsVal where
  | vBool (b : Bool)
  | vInt (i : Int)
  | vStr (bs : List Nat)
  | vBytes (bs : List Nat)
  | vName (nm : String)
  | vUndef
  | vArr (vs : List JsVal)
  | vMsg (fields : List (String × JsVal))

/-- A JavaScript message value: the property map from field names to values. -/
abbrev Msg := List (String × JsVal)

/-- Property lookup on a JavaScript object (absent key gives `none`, the
model of `undefined` from a missing property). -/
def jsGet (m : Msg) (k : String) : Option JsVal :=
  (m.find? (fun p => p.1 == k)).map (·.2)

/-- Property assignment on a JavaScript object: overwrite in place if the key
exists, else append. -/
def jsInsert (m : Msg) (k : String) (v : JsVal) : Msg :=
  match m with
  | [] => [(k, v)]
  | (k', v') :: t => if k' == k then (k', v) :: t else (k', v') :: jsInsert t k v

/-- JavaScript truthiness of a value, as tested by
`message[name] || (message[name] = [])` (src/js.ts line 279). -/
def jsTruthy : JsVal → Bool
  | .vBool b => b
  | .vInt i => i != 0
  | .vStr bs => !bs.isEmpty
  | .vName nm => nm != ""
  | .vUndef => false
  | _ => true

/-! ## Machine-integer helpers (JavaScript 32/64-bit wrapping) -/

/-- Interpret a `Nat` as a signed 32-bit value (JavaScript `| 0`). -/
def toInt32 (u : Nat) : Int :=
  if u % 2 ^ 32 < 2 ^ 31 then ((u % 2 ^ 32 : Nat) : Int)
  else ((u % 2 ^ 32 : Nat) : Int) - 2 ^ 32

/-- Interpret a `Nat` as a signed 64-bit value (a `Long`'s numeric value). -/
def toInt64 (u : Nat) : Int :=
  if u % 2 ^ 64 < 2 ^ 63 then ((u % 2 ^ 64 : Nat) : Int)
  else ((u % 2 ^ 64 : Nat) : Int) - 2 ^ 64

/-- The unsigned 32-bit residue of an integer (JavaScript `>>> 0`). -/
def intMod32 (i : Int) : Nat := (i % (2 ^ 32 : Int)).toNat

/-- The unsigned 64-bit residue of an integer (a `Long`'s bit pattern). -/
def intMod64 (i : Int) : Nat := (i % (2 ^ 64 : Int)).toNat

/-- JavaScript `value | 0`: reduce to a signed 32-bit integer. -/
def int32JS (i : Int) : Int := toInt32 (intMod32 i)

/-- Modelled from the spec: the 32-bit ZigZag map
`(n << 1) ^ (n >> 31)` on the int32 reduction of the value, producing an
unsigned 32-bit result (`writeVarint32ZigZag`). -/
def zigzag32 (i : Int) : Nat :=
  if 0 ≤ int32JS i then (2 * int32JS i).toNat % 2 ^ 32
  else (-2 * int32JS i - 1).toNat % 2 ^ 32

/-- Modelled from the spec: the 64-bit ZigZag map `(n << 1) ^ (n >> 63)` on
the int64 reduction of the value (`writeVarint64ZigZag`). -/
def zigzag64 (i : Int) : Nat :=
  if 0 ≤ toInt64 (intMod64 i) then (2 * toInt64 (intMod64 i)).toNat % 2 ^ 64
  else (-2 * toInt64 (intMod64 i) - 1).toNat % 2 ^ 64

/-- Modelled from the spec: the ZigZag inverse `(u >> 1) ^ -(u & 1)` applied
on decode; the caller supplies the already-reduced unsigned residue. -/
def unzigzag (u : Nat) : Int :=
  if u % 2 = 0 then ((u / 2 : Nat) : Int) else -((u / 2 : Nat) : Int) - 1

/-! ## Byte buffers

Modelled from the spec: the `ByteBuffer` cursor used by the generated code.
`data` is the underlying byte store (each entry read modulo 256), `off` the
read offset, `lim` the current limit; `remaining() = limit - offset` guards
the decode loops, while primitive reads are bounded by the store itself, and
`pushTemporaryLength`/restores move `lim` for length-delimited framing. -/
structure RBuf where
  data : List Nat
  off : Nat
  lim : Nat
deriving Repr, DecidableEq

/-- Modelled from the spec: read one byte and advance the offset; reading
past the underlying store is an error. -/
def RBuf.readByte (b : RBuf) : Except String (Nat × RBuf) :=
  match b.data[b.off]? with
  | some x => .ok (x % 256, { b with off := b.off + 1 })
  | none => .error "Index out of range"

/-- Modelled from the spec: advance the offset by a (possibly negative)
number of bytes, erroring when the result leaves the store
(`buffer.skip`). -/
def RBuf.skipI (b : RBuf) (len : Int) : Except String RBuf :=
  let no : Int := (b.off : Int) + len
  if 0 ≤ no ∧ no ≤ (b.data.length : Int) then .ok { b with off := no.toNat }
  else .error "Illegal offset"

/-- Modelled from the spec: base-128 varint write, little-endian groups, the
high bit set on all but the final byte; ten groups cover the full 64-bit
range the generated code ever writes.  Structured with an explicit group
counter so the definition is structural. -/
def writeVarintGo : Nat → Nat → List Nat
  | 0, n => [n % 128]
  | k + 1, n => if n < 128 then [n] else (n % 128 + 128) :: writeVarintGo k (n / 128)

/-- Modelled from the spec: the varint encoding of an unsigned value. -/
def writeVarintN (n : Nat) : List Nat := writeVarintGo 10 n

/-- Modelled from the spec: `writeVarint32` — varint-encode the unsigned
32-bit residue of the value. -/
def writeVarint32 (n : Nat) : List Nat := writeVarintN (n % 2 ^ 32)

/-- Modelled from the spec: `writeVarint64` — varint-encode the 64-bit
two's-complement pattern of the (Long) value. -/
def writeVarint64 (i : Int) : List Nat := writeVarintN (intMod64 i)

/-- Modelled from the spec: varint read — consume bytes while the high bit is
set, reassembling little-endian 7-bit groups; "a decode that finds no
terminating byte within 10 bytes is an error (malformed input)". -/
def readVarintGo : Nat → Nat → Nat → RBuf → Except String (Nat × RBuf)
  | 0, _, _, _ => .error "Truncated varint"
  | k + 1, mult, acc, b => do
    let (x, b') ← b.readByte
    if x < 128 then .ok (acc + x * mult, b')
    else readVarintGo k (mult * 128) (acc + (x - 128) * mult) b'

/-- Modelled from the spec: read one varint (at most 10 bytes). -/
def readVarintRaw (b : RBuf) : Except String (Nat × RBuf) :=
  readVarintGo 10 1 0 b

/-- Modelled from the spec: `readVarint32` — a varint read delivered as a
signed 32-bit value. -/
def readVarint32S (b : RBuf) : Except String (Int × RBuf) := do
  let (n, b') ← readVarintRaw b
  .ok (toInt32 n, b')

/-- Modelled from the spec: little-endian fixed-width write of `w` bytes. -/
def writeLE : Nat → Nat → List Nat
  | 0, _ => []
  | w + 1, n => n % 256 :: writeLE w (n / 256)

/-- Modelled from the spec: little-endian fixed-width read of `w` bytes. -/
def readLE : Nat → RBuf → Except String (Nat × RBuf)
  | 0, b => .ok (0, b)
  | w + 1, b => do
    let (x, b') ← b.readByte
    let (r, b'') ← readLE w b'
    .ok (x + 256 * r, b'')

/-- Modelled from the spec: read `len` raw bytes (`readBytes` /
`readUTF8String(len, "b")`). -/
def readBytesN (len : Nat) (b : RBuf) : Except String (List Nat × RBuf) :=
  if b.off + len ≤ b.data.length then
    .ok (((b.data.drop b.off).take len).map (· % 256), { b with off := b.off + len })
  else .error "Index out of range"

/-! ## Enum tables (src/js.ts lines 93-119) -/

/-- Strip a leading `"<EnumName>_"` from a value name when present
(src/js.ts lines 103-105: `key.slice(0, prefix.length) === prefix`). -/
def normEnumKey (ename key : String) : String :=
  let p := ename ++ "_"
  if key.take p.length == p then key.drop p.length else key

/-- Assignment into a JavaScript object used as a lookup table: overwriting
an existing key keeps its position, a new key is appended. -/
def jsInsertG {α β : Type} [BEq α] : List (α × β) → α → β → List (α × β)
  | [], k, v => [(k, v)]
  | (k', v') :: t, k, v =>
    if k' == k then (k', v) :: t else (k', v') :: jsInsertG t k v

/-- Table lookup in a JavaScript object. -/
def jsLookup {α β : Type} [BEq α] (m : List (α × β)) (k : α) : Option β :=
  (m.find? (fun p => p.1 == k)).map (·.2)

/-- The encode (name to integer) and decode (integer to name) tables built
for one enum definition by the loop of src/js.ts lines 98-109:
`encode[key] = value.value; decode[value.value] = key;` in source order with
the prefix-normalized key. -/
def enumTables (d : EnumDef) : List (String × Nat) × List (Nat × String) :=
  d.values.foldl
    (fun acc kv =>
      let key := normEnumKey d.name kv.1
      (jsInsertG acc.1 key kv.2, jsInsertG acc.2 kv.2 key))
    ([], [])

/-- The decode table of the enum declared under this name, if any. -/
def enumDecTable (s : Schema) (ty : String) : List (Nat × String) :=
  match s.enums.find? (fun d => d.name == ty) with
  | some d => (enumTables d).2
  | none => []

/-- The encode table of the enum declared under this name, if any. -/
def enumEncTable (s : Schema) (ty : String) : List (String × Nat) :=
  match s.enums.find? (fun d => d.name == ty) with
  | some d => (enumTables d).1
  | none => []

/-! ## Schema validation and `generate` (src/js.ts lines 121-128) -/

/-- The first field of the schema, in declaration order, violating the
`packed` rule of src/js.ts line 124:
`field.options.packed === 'true' && (!field.repeated || !(field.type in packableTypes))`. -/
def firstBadPacked (s : Schema) : Option FieldDef :=
  s.messages.findSome? (fun d =>
    d.fields.find? (fun f =>
      f.options.packed == some "true"
      && (!f.repeated || !((packableTypes s).contains f.type))))

/-- The data `generate` derives from a schema: the enum tables and the
message definitions whose codecs it emits. -/
structure GenOut where
  enums : List (String × (List (String × Nat) × List (Nat × String)))
  messages : List MessageDef

/-- The generator: validate the `packed` option over the whole schema
(src/js.ts lines 121-128, `throw new Error(...)` at line 125), and on
success hand out the schema-derived codec data.  A thrown validation error
aborts `generate`, so no output is produced. -/
def generate (s : Schema) : Except String GenOut :=
  match firstBadPacked s with
  | some f =>
    .error (f.name ++ ": [packed = true] can only be specified for repeated primitive fields")
  | none => .ok ⟨s.enums.map (fun d => (d.name, enumTables d)), s.messages⟩

/-- The effective packed-ness of a field in the generated encode, src/js.ts
line 136: `field.repeated && field.options.packed !== 'false' && field.type in packableTypes`. -/
def isPacked (s : Schema) (f : FieldDef) : Bool :=
  f.repeated && f.options.packed != some "false" && (packableTypes s).contains f.type

/-! ## Generated encode (src/js.ts lines 130-224)

The generated `encodeX(message)` walks the field list in declaration order,
contributing zero, one, or many tag+value emissions per field; nested
messages recurse through the sibling `encodeY` function.  The interpreter
below is one structurally fuel-recursive function over an explicit job type
so that the mutual recursion (field list / single field / element loop /
single value) of the emitted code stays a single Lean definition. -/

/-- The per-value write primitive of the encode switch, src/js.ts lines
146-180, for every non-message type: the bytes the `write` expression
appends for one value (length prefixes included for `bytes`/`string`, as in
the source's two-step framing). -/
def writeScalarCore (s : Schema) (ty : String) (v : JsVal) : Except String (List Nat) :=
  match ty, v with
  | "bool", .vBool b => .ok [if b then 1 else 0]
  | "bytes", .vBytes bs => .ok (writeVarint32 bs.length ++ bs)
  | "double", .vInt i => .ok (writeLE 8 (intMod64 i))
  | "fixed32", .vInt i => .ok (writeLE 4 (intMod32 i))
  | "fixed64", .vInt i => .ok (writeLE 8 (intMod64 i))
  | "float", .vInt i => .ok (writeLE 4 (intMod32 i))
  | "int32", .vInt i => .ok (writeVarint64 (int32JS i))
  | "int64", .vInt i => .ok (writeVarint64 i)
  | "sfixed32", .vInt i => .ok (writeLE 4 (intMod32 i))
  | "sfixed64", .vInt i => .ok (writeLE 8 (intMod64 i))
  | "sint32", .vInt i => .ok (writeVarintN (zigzag32 i))
  | "sint64", .vInt i => .ok (writeVarintN (zigzag64 i))
  | "string", .vStr bs => .ok (writeVarint32 bs.length ++ bs)
  | "uint32", .vInt i => .ok (writeVarintN (intMod32 i))
  | "uint64", .vInt i => .ok (writeVarint64 i)
  | other, vv =>
    if (s.enums.map (·.name)).contains other then
      match vv with
      | .vName nm =>
        match jsLookup (enumEncTable s other) nm with
        | some n => .ok (writeVarint32 n)
        | none => .error ("Unknown enum value: " ++ nm)
      | _ => .error "Invalid enum value"
    else .error "Invalid scalar value"

/-- The work items of the encode interpreter: encode one value of a given
type, emit one field, emit a run of repeated elements (with `some tagWord`
for the unpacked per-element tag, `none` inside a packed body), or emit a
whole field list. -/
inductive EncJob where
  | val (ty : String) (v : JsVal)
  | field1 (f : FieldDef) (m : Msg)
  | elems (tagWord : Option Nat) (ty : String) (vs : List JsVal)
  | fields (flds : List FieldDef) (m : Msg)

/-- The generated encode, src/js.ts lines 130-224, as a fuel-recursive
interpreter:

* `val`: the write primitive for one value; an embedded-message value
  recursively encodes the referenced message into a fresh buffer and emits
  `writeVarint32(nested.byteLength)` followed by the nested bytes
  (lines 174-176).
* `field1`: one field's emission — repeated fields read `message[name]`,
  skip `undefined`, and emit either the packed framing
  `tag(LENGTH_DELIMITED), varint(payload length), payload` (lines 186-196)
  or one `tag, value` per element (lines 199-204); singular fields emit
  `tag, value` when the property is not `undefined` (lines 211-219).
* `elems`: the element loop shared by both repeated forms.
* `fields`: the field list in declaration order; the final buffer is the
  concatenation (line 222, `buffer.flip().toBuffer()`). -/
def encodeGo (s : Schema) : Nat → EncJob → Except String (List Nat)
  | 0, _ => .error "Out of fuel"
  | fuel + 1, .val ty v =>
    if isMessageType s ty then
      match v with
      | .vMsg mm =>
        match s.messages.find? (fun d => d.name == ty) with
        | some d => do
          let nested ← encodeGo s fuel (.fields d.fields mm)
          .ok (writeVarint32 nested.length ++ nested)
        | none => .error ("Unknown type: " ++ ty)
      | _ => .error "Invalid message value"
    else writeScalarCore s ty v
  | fuel + 1, .field1 f m =>
    if f.repeated then
      match jsGet m f.name with
      | none => .ok []
      | some .vUndef => .ok []
      | some (.vArr vs) =>
        if isPacked s f then do
          let payload ← encodeGo s fuel (.elems none f.type vs)
          .ok (writeVarint32 (f.tag * 8 + 2) ++ writeVarint32 payload.length ++ payload)
        else
          encodeGo s fuel (.elems (some (f.tag * 8 + wireTypeOf s f.type)) f.type vs)
      | some _ => .error "Invalid repeated value"
    else
      match jsGet m f.name with
      | none => .ok []
      | some .vUndef => .ok []
      | some v => do
        let w ← encodeGo s fuel (.val f.type v)
        .ok (writeVarint32 (f.tag * 8 + wireTypeOf s f.type) ++ w)
  | _ + 1, .elems _ _ [] => .ok []
  | fuel + 1, .elems tw ty (v :: vs) => do
    let w ← encodeGo s fuel (.val ty v)
    let rest ← encodeGo s fuel (.elems tw ty vs)
    .ok ((match tw with | some t => writeVarint32 t | none => []) ++ w ++ rest)
  | _ + 1, .fields [] _ => .ok []
  | fuel + 1, .fields (f :: rest) m => do
    let bs ← encodeGo s fuel (.field1 f m)
    let bs' ← encodeGo s fuel (.fields rest m)
    .ok (bs ++ bs')

/-- The emission of one field by the generated encode
(src/js.ts lines 135-220). -/
def encodeField (s : Schema) (fuel : Nat) (f : FieldDef) (m : Msg) : Except String (List Nat) :=
  encodeGo s fuel (.field1 f m)

/-- The generated `encodeX(message)`: the bytes of the whole message
(src/js.ts lines 130-224). -/
def encodeMessage (s : Schema) (fuel : Nat) (d : MessageDef) (m : Msg) : Except String (List Nat) :=
  encodeGo s fuel (.fields d.fields m)

/-! ## Generated decode (src/js.ts lines 59-75 and 226-326) -/

/-- The generated helper `pushTemporaryLength(buffer)`, src/js.ts lines
59-64: read a varint length, narrow `buffer.limit` to
`buffer.offset + length`, and return the previous limit.
Modelled from the spec: the limit assignment rejects a limit outside the
underlying store. -/
def pushTemporaryLength (b : RBuf) : Except String (Nat × RBuf) := do
  let (len, b') ← readVarint32S b
  let nl : Int := (b'.off : Int) + len
  if 0 ≤ nl ∧ nl ≤ (b'.data.length : Int) then
    .ok (b'.lim, { b' with lim := nl.toNat })
  else .error "Illegal limit"

/-- The `while (buffer.readByte() & 0x80) {}` loop of `skipUnknownField`
(src/js.ts line 69): consume bytes while the high bit is set.  The loop in
the generated code is unbounded; the fuel only makes the model total. -/
def skipVarintBytes : Nat → RBuf → Except String RBuf
  | 0, _ => .error "Out of fuel"
  | k + 1, b => do
    let (x, b') ← b.readByte
    if 128 ≤ x then skipVarintBytes k b' else .ok b'

/-- The generated helper `skipUnknownField(buffer, type)`, src/js.ts lines
67-75: dispatch on the wire-type bits — varint: consume while high bit set;
length-delimited: skip a varint-length worth of bytes; 4-byte; 8-byte; any
other wire type throws `"Unimplemented type: " + type`. -/
def skipUnknownField (fuel : Nat) (b : RBuf) (wt : Nat) : Except String RBuf :=
  match wt with
  | 0 => skipVarintBytes fuel b
  | 2 => do
    let (len, b') ← readVarint32S b
    b'.skipI len
  | 5 => b.skipI 4
  | 1 => b.skipI 8
  | _ => .error ("Unimplemented type: " ++ toString wt)

/-- The per-value read primitive of the decode switch, src/js.ts lines
249-268, for every non-message type (the embedded-message case is inlined in
the decode loop, as in the generated code).  Modelled from the spec for the
underlying `bytebuffer` reads: varint reads deliver at most 10 bytes;
`uint32` masks to the unsigned 32-bit range and `uint64` to the unsigned
64-bit range; an enum integer with no decode-table entry produces
`undefined`. -/
def readScalarSimple (s : Schema) (ty : String) (b : RBuf) : Except String (JsVal × RBuf) :=
  match ty with
  | "bool" => do
    let (x, b') ← b.readByte
    .ok (.vBool (x != 0), b')
  | "bytes" => do
    let (len, b') ← readVarint32S b
    if 0 ≤ len then
      let (bs, b'') ← readBytesN len.toNat b'
      .ok (.vBytes bs, b'')
    else .error "Illegal length"
  | "double" => do
    let (n, b') ← readLE 8 b
    .ok (.vInt (n : Int), b')
  | "fixed32" => do
    let (n, b') ← readLE 4 b
    .ok (.vInt (n : Int), b')
  | "fixed64" => do
    let (n, b') ← readLE 8 b
    .ok (.vInt (n : Int), b')
  | "float" => do
    let (n, b') ← readLE 4 b
    .ok (.vInt (n : Int), b')
  | "int32" => do
    let (n, b') ← readVarintRaw b
    .ok (.vInt (toInt32 n), b')
  | "int64" => do
    let (n, b') ← readVarintRaw b
    .ok (.vInt (toInt64 n), b')
  | "sfixed32" => do
    let (n, b') ← readLE 4 b
    .ok (.vInt (toInt32 n), b')
  | "sfixed64" => do
    let (n, b') ← readLE 8 b
    .ok (.vInt (toInt64 n), b')
  | "sint32" => do
    let (n, b') ← readVarintRaw b
    .ok (.vInt (unzigzag (n % 2 ^ 32)), b')
  | "sint64" => do
    let (n, b') ← readVarintRaw b
    .ok (.vInt (unzigzag (n % 2 ^ 64)), b')
  | "string" => do
    let (len, b') ← readVarint32S b
    if 0 ≤ len then
      let (bs, b'') ← readBytesN len.toNat b'
      .ok (.vStr bs, b'')
    else .error "Illegal length"
  | "uint32" => do
    let (n, b') ← readVarintRaw b
    .ok (.vInt ((n % 2 ^ 32 : Nat) : Int), b')
  | "uint64" => do
    let (n, b') ← readVarintRaw b
    .ok (.vInt ((n % 2 ^ 64 : Nat) : Int), b')
  | other =>
    if (s.enums.map (·.name)).contains other then do
      let (n, b') ← readVarintRaw b
      match (enumDecTable s other).find? (fun p => ((p.1 : Int)) == toInt32 n) with
      | some p => .ok (.vName p.2, b')
      | none => .ok (.vUndef, b')
    else .error ("Unhandled type: " ++ other)

/-- The packed inner loop of the generated decode, src/js.ts lines 285-288:
`while (buffer.remaining() > 0) values.push(<read>);` under the temporary
limit.  The generated loop is unbounded; the fuel only makes the model
total. -/
def packedReadLoop (s : Schema) (ty : String) : Nat → List JsVal → RBuf → Except String (List JsVal × RBuf)
  | 0, _, _ => .error "Out of fuel"
  | fuel + 1, acc, b =>
    if b.lim ≤ b.off then .ok (acc, b)
    else do
      let (v, b') ← readScalarSimple s ty b
      packedReadLoop s ty fuel (acc ++ [v]) b'

/-- `var values = message[name] || (message[name] = []);` (src/js.ts line
279): the current element array of a repeated field — a fresh empty array
when the property is falsy, the stored array otherwise, and a type error
when a truthy non-array is stored. -/
def getValuesArr (m : Msg) (k : String) : Except String (List JsVal) :=
  match jsGet m k with
  | none => .ok []
  | some v =>
    if jsTruthy v then
      match v with
      | .vArr l => .ok l
      | _ => .error "values.push is not a function"
    else .ok []

/-- Whether `message[name] === undefined` holds for the decoded value
mapping (absent property, or a stored `undefined`). -/
def jsMissing (m : Msg) (k : String) : Bool :=
  match jsGet m k with
  | none => true
  | some .vUndef => true
  | some _ => false

/-- The required-field verification emitted after the decode loop, src/js.ts
lines 317-323: for each `required` field in declaration order,
`if (message[name] === undefined) throw new Error("Missing required field: " + name)`. -/
def checkRequiredGo (m : Msg) : List FieldDef → Except String Unit
  | [] => .ok ()
  | f :: rest =>
    if f.required && jsMissing m f.name then
      .error ("Missing required field: " ++ f.name)
    else checkRequiredGo m rest

/-- The required-field check of one message definition. -/
def checkRequired (d : MessageDef) (m : Msg) : Except String Unit :=
  checkRequiredGo m d.fields

/-- The decode loop of the generated `decodeX(buffer)`, src/js.ts lines
232-314: while `buffer.remaining() > 0`, read a tag varint; field number 0
breaks out of the loop; a declared field's case applies its read logic
(packed-aware for repeated packable fields, with the temporary-limit
save/restore for embedded messages, whose nested decode — the generated
sibling `decodeY`, including its own required-field check — recurses here);
an unmatched field number is skipped by `skipUnknownField` on the tag's
wire-type bits.  Each recursive step consumes one unit of fuel; the
generated loops are unbounded and the fuel only makes the model total. -/
def decodeLoop (s : Schema) : Nat → MessageDef → Msg → RBuf → Except String (Msg × RBuf)
  | 0, _, _, _ => .error "Out of fuel"
  | fuel + 1, d, m, b =>
    if b.lim ≤ b.off then .ok (m, b)
    else do
      let (n, b₀) ← readVarintRaw b
      let tagU := n % 2 ^ 32
      if tagU / 8 = 0 then .ok (m, b₀)
      else
        match d.fields.find? (fun f => f.tag == tagU / 8) with
        | none => do
          let b₁ ← skipUnknownField fuel b₀ (tagU % 8)
          decodeLoop s fuel d m b₁
        | some f =>
          if isMessageType s f.type then
            match s.messages.find? (fun dd => dd.name == f.type) with
            | none => .error ("Unknown type: " ++ f.type)
            | some nd => do
              let (outer, b₁) ← pushTemporaryLength b₀
              let (mm, b₂) ← decodeLoop s fuel nd [] b₁
              let _ ← checkRequired nd mm
              let b₃ := { b₂ with lim := outer }
              if f.repeated then do
                let cur ← getValuesArr m f.name
                decodeLoop s fuel d (jsInsert m f.name (.vArr (cur ++ [.vMsg mm]))) b₃
              else
                decodeLoop s fuel d (jsInsert m f.name (.vMsg mm)) b₃
          else if f.repeated then do
            let cur ← getValuesArr m f.name
            if (packableTypes s).contains f.type then
              if tagU % 8 = 2 then do
                let (outer, b₁) ← pushTemporaryLength b₀
                let (vs, b₂) ← packedReadLoop s f.type fuel [] b₁
                let b₃ := { b₂ with lim := outer }
                decodeLoop s fuel d (jsInsert m f.name (.vArr (cur ++ vs))) b₃
              else do
                let (v, b₁) ← readScalarSimple s f.type b₀
                decodeLoop s fuel d (jsInsert m f.name (.vArr (cur ++ [v]))) b₁
            else do
              let (v, b₁) ← readScalarSimple s f.type b₀
              decodeLoop s fuel d (jsInsert m f.name (.vArr (cur ++ [v]))) b₁
          else do
            let (v, b₁) ← readScalarSimple s f.type b₀
            decodeLoop s fuel d (jsInsert m f.name v) b₁

/-- The generated `decodeX(buffer)`, src/js.ts lines 226-326: wrap the input
bytes in a cursor, run the decode loop from an empty message, verify the
required fields, and return the message. -/
def decodeMessage (s : Schema) (fuel : Nat) (d : MessageDef) (bytes : List Nat) : Except String Msg := do
  let (m, _) ← decodeLoop s fuel d [] ⟨bytes, 0, bytes.length⟩
  let _ ← checkRequired d m
  .ok m

/-- Validity of a JavaScript value for a scalar field type: the value shapes
and numeric ranges for which the declared type is an honest description
(boundary values included). -/
def validScalarB (ty : String) (v : JsVal) : Bool :=
  match v with
  | .vBool _ => ty == "bool"
  | .vBytes bs => ty == "bytes" && bs.length < 2 ^ 31 && bs.all (· < 256)
  | .vStr bs => ty == "string" && bs.length < 2 ^ 31 && bs.all (· < 256)
  | .vInt i =>
    if ty == "double" || ty == "fixed64" || ty == "uint64" then
      0 ≤ i && i < 2 ^ 64
    else if ty == "float" || ty == "fixed32" || ty == "uint32" then
      0 ≤ i && i < 2 ^ 32
    else if ty == "sfixed32" || ty == "int32" || ty == "sint32" then
      -(2 ^ 31) ≤ i && i < 2 ^ 31
    else if ty == "sfixed64" || ty == "int64" || ty == "sint64" then
      -(2 ^ 63) ≤ i && i < 2 ^ 63
    else false
  | _ => false


/-- Reduction of an Except bind at a ready value (the do-notation step). -/
theorem exceptBind_ok {a b : Type} (x : a) (f : a → Except String b) :
    (Except.ok x >>= f) = f x := rfl

theorem readByte_cons (pre : List Nat) (x : Nat) (rest : List Nat) (lim : Nat) :
    RBuf.readByte ⟨pre ++ x :: rest, pre.length, lim⟩ =
      .ok (x % 256, ⟨pre ++ x :: rest, pre.length + 1, lim⟩) := by
  unfold RBuf.readByte
  rw [List.getElem?_append_right (Nat.le_refl _)]
  simp

theorem readVarintGo_write (j : Nat) :
    ∀ (K mult acc n : Nat) (pre post : List Nat) (lim : Nat),
      n < 128 ^ j → j ≤ K → 0 < j →
      readVarintGo K mult acc ⟨pre ++ writeVarintGo j n ++ post, pre.length, lim⟩ =
        .ok (acc + n * mult,
             ⟨pre ++ writeVarintGo j n ++ post,
              pre.length + (writeVarintGo j n).length, lim⟩) := by
  induction j with
  | zero => intro _ _ _ _ _ _ _ _ _ hj; omega
  | succ j ih =>
    intro K mult acc n pre post lim hn hjK hj
    obtain ⟨K', rfl⟩ : ∃ K', K = K' + 1 := ⟨K - 1, by omega⟩
    by_cases h : n < 128
    · have hw : writeVarintGo (j + 1) n = [n] := by
        unfold writeVarintGo; simp [h]
      rw [hw]
      unfold readVarintGo
      have e1 : pre ++ [n] ++ post = pre ++ n :: post := by simp
      rw [e1, readByte_cons pre n post lim]
      have hx : n % 256 = n := Nat.mod_eq_of_lt (by omega)
      simp [exceptBind_ok, hx, h]
    · have hw : writeVarintGo (j + 1) n = (n % 128 + 128) :: writeVarintGo j (n / 128) := by
        rw [writeVarintGo]; simp [h]
      rw [hw]
      unfold readVarintGo
      have e1 : pre ++ ((n % 128 + 128) :: writeVarintGo j (n / 128)) ++ post
          = pre ++ (n % 128 + 128) :: (writeVarintGo j (n / 128) ++ post) := by simp
      rw [e1, readByte_cons pre (n % 128 + 128) (writeVarintGo j (n / 128) ++ post) lim]
      have hx : (n % 128 + 128) % 256 = n % 128 + 128 := Nat.mod_eq_of_lt (by omega)
      have hge : ¬ (n % 128 + 128 < 128) := by omega
      rw [exceptBind_ok]
      simp only [hx]
      rw [if_neg hge]
      have hd : n / 128 < 128 ^ j := by
        have : n < 128 * 128 ^ j := by rw [pow_succ] at hn; omega
        omega
      have hj' : 0 < j := by
        rcases Nat.eq_zero_or_pos j with hz | hp
        · subst hz; simp at hd; omega
        · exact hp
      have e2 : pre ++ (n % 128 + 128) :: (writeVarintGo j (n / 128) ++ post)
          = (pre ++ [n % 128 + 128]) ++ writeVarintGo j (n / 128) ++ post := by simp
      have e3 : pre.length + 1 = (pre ++ [n % 128 + 128]).length := by simp
      have hacc : n % 128 + 128 - 128 = n % 128 := by omega
      rw [hacc, e2, e3, ih K' (mult * 128) (acc + n % 128 * mult) (n / 128)
        (pre ++ [n % 128 + 128]) post lim hd (by omega) hj']
      simp only [Except.ok.injEq, Prod.mk.injEq, RBuf.mk.injEq, List.length_append,
        List.length_cons, List.length_nil, and_true, true_and]
      constructor
      · conv_rhs => rw [← Nat.div_add_mod n 128]
        ring
      · omega

/-- A varint write is never empty. -/
theorem writeVarintGo_ne_nil (k n : Nat) : writeVarintGo k n ≠ [] := by
  cases k with
  | zero => simp [writeVarintGo]
  | succ k =>
    unfold writeVarintGo
    by_cases h : n < 128 <;> simp [h]

/-- Round trip for `readVarintRaw` over `writeVarintN` at the seam: any value
the generated code ever writes (below `128 ^ 10 = 2 ^ 70`) reads back
exactly. -/
theorem readVarintRaw_write (n : Nat) (pre post : List Nat) (lim : Nat)
    (hn : n < 128 ^ 10) :
    readVarintRaw ⟨pre ++ writeVarintN n ++ post, pre.length, lim⟩ =
      .ok (n, ⟨pre ++ writeVarintN n ++ post,
               pre.length + (writeVarintN n).length, lim⟩) := by
  unfold readVarintRaw writeVarintN
  have := readVarintGo_write 10 10 1 0 n pre post lim hn (Nat.le_refl _) (by omega)
  simpa using this

/-- `writeLE` always writes exactly its width. -/
theorem writeLE_length (w : Nat) : ∀ n, (writeLE w n).length = w := by
  induction w with
  | zero => intro n; simp [writeLE]
  | succ w ih => intro n; unfold writeLE; simp [ih]

/-- Round trip for the little-endian fixed-width pair at the seam. -/
theorem readLE_writeLE (w : Nat) :
    ∀ (n : Nat) (pre post : List Nat) (lim : Nat), n < 256 ^ w →
      readLE w ⟨pre ++ writeLE w n ++ post, pre.length, lim⟩ =
        .ok (n, ⟨pre ++ writeLE w n ++ post, pre.length + w, lim⟩) := by
  induction w with
  | zero =>
    intro n pre post lim hn
    have : n = 0 := by omega
    subst this
    simp [writeLE, readLE]
  | succ w ih =>
    intro n pre post lim hn
    unfold writeLE readLE
    have e1 : pre ++ (n % 256 :: writeLE w (n / 256)) ++ post
        = pre ++ n % 256 :: (writeLE w (n / 256) ++ post) := by simp
    rw [e1, readByte_cons pre (n % 256) (writeLE w (n / 256) ++ post) lim, exceptBind_ok]
    have hx : n % 256 % 256 = n % 256 := Nat.mod_eq_of_lt (Nat.mod_lt n (by omega))
    simp only [hx]
    have hd : n / 256 < 256 ^ w := by
      have : n < 256 * 256 ^ w := by rw [pow_succ] at hn; omega
      omega
    have e2 : pre ++ n % 256 :: (writeLE w (n / 256) ++ post)
        = (pre ++ [n % 256]) ++ writeLE w (n / 256) ++ post := by simp
    have e3 : pre.length + 1 = (pre ++ [n % 256]).length := by simp
    rw [e2, e3, ih (n / 256) (pre ++ [n % 256]) post lim hd, exceptBind_ok]
    simp only [Except.ok.injEq, Prod.mk.injEq, RBuf.mk.injEq, List.length_append,
      List.length_cons, List.length_nil, and_true, true_and]
    constructor
    · omega
    · omega

/-- Reading `len` raw bytes at the seam returns them unchanged when they are
genuine bytes. -/
theorem readBytesN_at (bs pre post : List Nat) (lim : Nat)
    (hb : ∀ x ∈ bs, x < 256) :
    readBytesN bs.length ⟨pre ++ bs ++ post, pre.length, lim⟩ =
      .ok (bs, ⟨pre ++ bs ++ post, pre.length + bs.length, lim⟩) := by
  unfold readBytesN
  have hlen : pre.length + bs.length ≤ (pre ++ bs ++ post).length := by
    simp [List.length_append]
  rw [if_pos hlen]
  have hdrop : (pre ++ bs ++ post).drop pre.length = bs ++ post := by
    rw [List.append_assoc, List.drop_left]
  have htake : (bs ++ post).take bs.length = bs := List.take_left _ _
  rw [hdrop, htake]
  have hmap : bs.map (· % 256) = bs :=
    List.map_congr_left (fun x hx => Nat.mod_eq_of_lt (hb x hx)) |>.trans (List.map_id _)
  rw [hmap]

/-! ## Toolkit: machine-integer arithmetic facts -/

theorem toInt32_of_lt {u : Nat} (h : u < 2 ^ 31) : toInt32 u = u := by
  unfold toInt32
  have h32 : u % 2 ^ 32 = u := Nat.mod_eq_of_lt (by omega)
  rw [h32, if_pos h]

theorem intMod32_lt (i : Int) : intMod32 i < 2 ^ 32 := by
  unfold intMod32; omega

theorem intMod64_lt (i : Int) : intMod64 i < 2 ^ 64 := by
  unfold intMod64; omega

theorem arith_int32 (i : Int) (h1 : -(2 ^ 31) ≤ i) (h2 : i < 2 ^ 31) :
    toInt32 (intMod64 (int32JS i)) = i := by
  unfold toInt32 intMod64 int32JS toInt32 intMod32
  split <;> split <;> omega

theorem arith_int64 (i : Int) (h1 : -(2 ^ 63) ≤ i) (h2 : i < 2 ^ 63) :
    toInt64 (intMod64 i) = i := by
  unfold toInt64 intMod64
  split <;> omega

theorem arith_uint32 (i : Int) (h1 : 0 ≤ i) (h2 : i < 2 ^ 32) :
    ((intMod32 i % 2 ^ 32 : Nat) : Int) = i := by
  unfold intMod32; omega

theorem arith_uint64 (i : Int) (h1 : 0 ≤ i) (h2 : i < 2 ^ 64) :
    ((intMod64 i % 2 ^ 64 : Nat) : Int) = i := by
  unfold intMod64; omega

theorem arith_sint32 (i : Int) (h1 : -(2 ^ 31) ≤ i) (h2 : i < 2 ^ 31) :
    unzigzag (zigzag32 i % 2 ^ 32) = i := by
  unfold unzigzag zigzag32 int32JS toInt32 intMod32
  split <;> split <;> split <;> omega

theorem arith_sint64 (i : Int) (h1 : -(2 ^ 63) ≤ i) (h2 : i < 2 ^ 63) :
    unzigzag (zigzag64 i % 2 ^ 64) = i := by
  unfold unzigzag zigzag64 toInt64 intMod64
  split <;> split <;> split <;> omega

theorem arith_sfixed32 (i : Int) (h1 : -(2 ^ 31) ≤ i) (h2 : i < 2 ^ 31) :
    toInt32 (intMod32 i) = i := by
  unfold toInt32 intMod32
  split <;> omega

theorem arith_sfixed64 (i : Int) (h1 : -(2 ^ 63) ≤ i) (h2 : i < 2 ^ 63) :
    toInt64 (intMod64 i) = i := by
  unfold toInt64 intMod64
  split <;> omega

theorem arith_fixed32 (i : Int) (h1 : 0 ≤ i) (h2 : i < 2 ^ 32) :
    ((intMod32 i : Nat) : Int) = i := by
  unfold intMod32; omega

theorem arith_fixed64 (i : Int) (h1 : 0 ≤ i) (h2 : i < 2 ^ 64) :
    ((intMod64 i : Nat) : Int) = i := by
  unfold intMod64; omega

theorem zigzag32_lt (i : Int) : zigzag32 i < 2 ^ 32 := by
  unfold zigzag32 int32JS toInt32 intMod32
  split <;> split <;> omega

theorem zigzag64_lt (i : Int) : zigzag64 i < 2 ^ 64 := by
  unfold zigzag64 toInt64 intMod64
  split <;> split <;> omega

/-! ## Toolkit: the per-scalar write primitives read back exactly -/

/-- `readScalarSimple` on this type consumes exactly the bytes `w` wherever
they sit in the input and delivers the value `dv`: the contract between the
scalar write primitive and the scalar read primitive of the generated
code. -/
def readsExactly (s : Schema) (ty : String) (w : List Nat) (dv : JsVal) : Prop :=
  ∀ (pre post : List Nat) (lim : Nat),
    readScalarSimple s ty ⟨pre ++ w ++ post, pre.length, lim⟩ =
      .ok (dv, ⟨pre ++ w ++ post, pre.length + w.length, lim⟩)

theorem pow_bound_varint : (2 : Nat) ^ 64 ≤ 128 ^ 10 := by norm_num

theorem readsExactly_bool (s : Schema) (b : Bool) :
    readsExactly s "bool" [if b then 1 else 0] (.vBool b) := by
  intro pre post lim
  simp only [readScalarSimple]
  have e1 : pre ++ [if b then (1 : Nat) else 0] ++ post
      = pre ++ (if b then (1 : Nat) else 0) :: post := by simp
  rw [e1, readByte_cons]
  cases b <;> simp [exceptBind_ok]

theorem readsExactly_uint32 (s : Schema) (i : Int) (h1 : 0 ≤ i) (h2 : i < 2 ^ 32) :
    readsExactly s "uint32" (writeVarintN (intMod32 i)) (.vInt i) := by
  intro pre post lim
  simp only [readScalarSimple]
  rw [readVarintRaw_write (intMod32 i) pre post lim
    (by have := intMod32_lt i; have := pow_bound_varint; omega)]
  simp [exceptBind_ok]
  unfold intMod32
  omega

theorem readsExactly_uint64 (s : Schema) (i : Int) (h1 : 0 ≤ i) (h2 : i < 2 ^ 64) :
    readsExactly s "uint64" (writeVarintN (intMod64 i)) (.vInt i) := by
  intro pre post lim
  simp only [readScalarSimple]
  rw [readVarintRaw_write (intMod64 i) pre post lim
    (by have := intMod64_lt i; have := pow_bound_varint; omega)]
  simp [exceptBind_ok]
  unfold intMod64
  omega

theorem readsExactly_int32 (s : Schema) (i : Int) (h1 : -(2 ^ 31) ≤ i) (h2 : i < 2 ^ 31) :
    readsExactly s "int32" (writeVarintN (intMod64 (int32JS i))) (.vInt i) := by
  intro pre post lim
  simp only [readScalarSimple]
  rw [readVarintRaw_write (intMod64 (int32JS i)) pre post lim
    (by have := intMod64_lt (int32JS i); have := pow_bound_varint; omega)]
  simp [exceptBind_ok, arith_int32 i h1 h2]

theorem readsExactly_int64 (s : Schema) (i : Int) (h1 : -(2 ^ 63) ≤ i) (h2 : i < 2 ^ 63) :
    readsExactly s "int64" (writeVarintN (intMod64 i)) (.vInt i) := by
  intro pre post lim
  simp only [readScalarSimple]
  rw [readVarintRaw_write (intMod64 i) pre post lim
    (by have := intMod64_lt i; have := pow_bound_varint; omega)]
  simp [exceptBind_ok, arith_int64 i h1 h2]

theorem readsExactly_sint32 (s : Schema) (i : Int) (h1 : -(2 ^ 31) ≤ i) (h2 : i < 2 ^ 31) :
    readsExactly s "sint32" (writeVarintN (zigzag32 i)) (.vInt i) := by
  intro pre post lim
  simp only [readScalarSimple]
  rw [readVarintRaw_write (zigzag32 i) pre post lim
    (by have := zigzag32_lt i; have := pow_bound_varint; omega)]
  simp [exceptBind_ok]
  exact arith_sint32 i h1 h2

theorem readsExactly_sint64 (s : Schema) (i : Int) (h1 : -(2 ^ 63) ≤ i) (h2 : i < 2 ^ 63) :
    readsExactly s "sint64" (writeVarintN (zigzag64 i)) (.vInt i) := by
  intro pre post lim
  simp only [readScalarSimple]
  rw [readVarintRaw_write (zigzag64 i) pre post lim
    (by have := zigzag64_lt i; have := pow_bound_varint; omega)]
  simp [exceptBind_ok]
  exact arith_sint64 i h1 h2

theorem readsExactly_double (s : Schema) (i : Int) (h1 : 0 ≤ i) (h2 : i < 2 ^ 64) :
    readsExactly s "double" (writeLE 8 (intMod64 i)) (.vInt i) := by
  intro pre post lim
  simp only [readScalarSimple]
  rw [readLE_writeLE 8 (intMod64 i) pre post lim (by have := intMod64_lt i; norm_num; omega)]
  simp [exceptBind_ok, writeLE_length, arith_fixed64 i h1 h2]

theorem readsExactly_fixed64 (s : Schema) (i : Int) (h1 : 0 ≤ i) (h2 : i < 2 ^ 64) :
    readsExactly s "fixed64" (writeLE 8 (intMod64 i)) (.vInt i) := by
  intro pre post lim
  simp only [readScalarSimple]
  rw [readLE_writeLE 8 (intMod64 i) pre post lim (by have := intMod64_lt i; norm_num; omega)]
  simp [exceptBind_ok, writeLE_length, arith_fixed64 i h1 h2]

theorem readsExactly_float (s : Schema) (i : Int) (h1 : 0 ≤ i) (h2 : i < 2 ^ 32) :
    readsExactly s "float" (writeLE 4 (intMod32 i)) (.vInt i) := by
  intro pre post lim
  simp only [readScalarSimple]
  rw [readLE_writeLE 4 (intMod32 i) pre post lim (by have := intMod32_lt i; norm_num; omega)]
  simp [exceptBind_ok, writeLE_length, arith_fixed32 i h1 h2]

theorem readsExactly_fixed32 (s : Schema) (i : Int) (h1 : 0 ≤ i) (h2 : i < 2 ^ 32) :
    readsExactly s "fixed32" (writeLE 4 (intMod32 i)) (.vInt i) := by
  intro pre post lim
  simp only [readScalarSimple]
  rw [readLE_writeLE 4 (intMod32 i) pre post lim (by have := intMod32_lt i; norm_num; omega)]
  simp [exceptBind_ok, writeLE_length, arith_fixed32 i h1 h2]

theorem readsExactly_sfixed32 (s : Schema) (i : Int) (h1 : -(2 ^ 31) ≤ i) (h2 : i < 2 ^ 31) :
    readsExactly s "sfixed32" (writeLE 4 (intMod32 i)) (.vInt i) := by
  intro pre post lim
  simp only [readScalarSimple]
  rw [readLE_writeLE 4 (intMod32 i) pre post lim (by have := intMod32_lt i; norm_num; omega)]
  simp [exceptBind_ok, writeLE_length, arith_sfixed32 i h1 h2]

theorem readsExactly_sfixed64 (s : Schema) (i : Int) (h1 : -(2 ^ 63) ≤ i) (h2 : i < 2 ^ 63) :
    readsExactly s "sfixed64" (writeLE 8 (intMod64 i)) (.vInt i) := by
  intro pre post lim
  simp only [readScalarSimple]
  rw [readLE_writeLE 8 (intMod64 i) pre post lim (by have := intMod64_lt i; norm_num; omega)]
  simp [exceptBind_ok, writeLE_length, arith_sfixed64 i h1 h2]

theorem readsExactly_bytes (s : Schema) (bs : List Nat)
    (h1 : bs.length < 2 ^ 31) (hb : ∀ x ∈ bs, x < 256) :
    readsExactly s "bytes" (writeVarint32 bs.length ++ bs) (.vBytes bs) := by
  intro pre post lim
  simp only [readScalarSimple, readVarint32S]
  have hlen32 : bs.length % 2 ^ 32 = bs.length := Nat.mod_eq_of_lt (by omega)
  unfold writeVarint32
  rw [hlen32]
  have e1 : pre ++ (writeVarintN bs.length ++ bs) ++ post
      = pre ++ writeVarintN bs.length ++ (bs ++ post) := by simp
  rw [e1, readVarintRaw_write bs.length pre (bs ++ post) lim
    (by have := pow_bound_varint; omega)]
  rw [exceptBind_ok, exceptBind_ok]
  dsimp only
  have ht : toInt32 bs.length = (bs.length : Int) := toInt32_of_lt (by omega)
  rw [ht, if_pos (by positivity)]
  have htn : ((bs.length : Int)).toNat = bs.length := Int.toNat_natCast _
  rw [htn]
  have e2 : pre ++ writeVarintN bs.length ++ (bs ++ post)
      = (pre ++ writeVarintN bs.length) ++ bs ++ post := by simp
  have e3 : pre.length + (writeVarintN bs.length).length
      = (pre ++ writeVarintN bs.length).length := by simp
  rw [e2, e3, readBytesN_at bs (pre ++ writeVarintN bs.length) post lim hb, exceptBind_ok]
  simp only [Except.ok.injEq, Prod.mk.injEq, RBuf.mk.injEq, List.length_append, true_and]
  exact ⟨by omega, trivial⟩

theorem readsExactly_string (s : Schema) (bs : List Nat)
    (h1 : bs.length < 2 ^ 31) (hb : ∀ x ∈ bs, x < 256) :
    readsExactly s "string" (writeVarint32 bs.length ++ bs) (.vStr bs) := by
  intro pre post lim
  simp only [readScalarSimple, readVarint32S]
  have hlen32 : bs.length % 2 ^ 32 = bs.length := Nat.mod_eq_of_lt (by omega)
  unfold writeVarint32
  rw [hlen32]
  have e1 : pre ++ (writeVarintN bs.length ++ bs) ++ post
      = pre ++ writeVarintN bs.length ++ (bs ++ post) := by simp
  rw [e1, readVarintRaw_write bs.length pre (bs ++ post) lim
    (by have := pow_bound_varint; omega)]
  rw [exceptBind_ok, exceptBind_ok]
  dsimp only
  have ht : toInt32 bs.length = (bs.length : Int) := toInt32_of_lt (by omega)
  rw [ht, if_pos (by positivity)]
  have htn : ((bs.length : Int)).toNat = bs.length := Int.toNat_natCast _
  rw [htn]
  have e2 : pre ++ writeVarintN bs.length ++ (bs ++ post)
      = (pre ++ writeVarintN bs.length) ++ bs ++ post := by simp
  have e3 : pre.length + (writeVarintN bs.length).length
      = (pre ++ writeVarintN bs.length).length := by simp
  rw [e2, e3, readBytesN_at bs (pre ++ writeVarintN bs.length) post lim hb, exceptBind_ok]
  simp only [Except.ok.injEq, Prod.mk.injEq, RBuf.mk.injEq, List.length_append, true_and]
  exact ⟨by omega, trivial⟩

/-! Reduction of `writeScalarCore` at each literal scalar case (stated once,
by `rfl`, so later proofs never re-reduce the two-discriminant match). -/

theorem writeScalarCore_bool (s : Schema) (b : Bool) :
    writeScalarCore s "bool" (.vBool b) = .ok [if b then 1 else 0] := rfl

theorem writeScalarCore_bytes (s : Schema) (bs : List Nat) :
    writeScalarCore s "bytes" (.vBytes bs) = .ok (writeVarint32 bs.length ++ bs) := rfl

theorem writeScalarCore_string (s : Schema) (bs : List Nat) :
    writeScalarCore s "string" (.vStr bs) = .ok (writeVarint32 bs.length ++ bs) := rfl

theorem writeScalarCore_double (s : Schema) (i : Int) :
    writeScalarCore s "double" (.vInt i) = .ok (writeLE 8 (intMod64 i)) := rfl

theorem writeScalarCore_float (s : Schema) (i : Int) :
    writeScalarCore s "float" (.vInt i) = .ok (writeLE 4 (intMod32 i)) := rfl

theorem writeScalarCore_fixed32 (s : Schema) (i : Int) :
    writeScalarCore s "fixed32" (.vInt i) = .ok (writeLE 4 (intMod32 i)) := rfl

theorem writeScalarCore_fixed64 (s : Schema) (i : Int) :
    writeScalarCore s "fixed64" (.vInt i) = .ok (writeLE 8 (intMod64 i)) := rfl

theorem writeScalarCore_sfixed32 (s : Schema) (i : Int) :
    writeScalarCore s "sfixed32" (.vInt i) = .ok (writeLE 4 (intMod32 i)) := rfl

theorem writeScalarCore_sfixed64 (s : Schema) (i : Int) :
    writeScalarCore s "sfixed64" (.vInt i) = .ok (writeLE 8 (intMod64 i)) := rfl

theorem writeScalarCore_int32 (s : Schema) (i : Int) :
    writeScalarCore s "int32" (.vInt i) = .ok (writeVarint64 (int32JS i)) := rfl

theorem writeScalarCore_int64 (s : Schema) (i : Int) :
    writeScalarCore s "int64" (.vInt i) = .ok (writeVarint64 i) := rfl

theorem writeScalarCore_sint32 (s : Schema) (i : Int) :
    writeScalarCore s "sint32" (.vInt i) = .ok (writeVarintN (zigzag32 i)) := rfl

theorem writeScalarCore_sint64 (s : Schema) (i : Int) :
    writeScalarCore s "sint64" (.vInt i) = .ok (writeVarintN (zigzag64 i)) := rfl

theorem writeScalarCore_uint32 (s : Schema) (i : Int) :
    writeScalarCore s "uint32" (.vInt i) = .ok (writeVarintN (intMod32 i)) := rfl

theorem writeScalarCore_uint64 (s : Schema) (i : Int) :
    writeScalarCore s "uint64" (.vInt i) = .ok (writeVarint64 i) := rfl

/-- The scalar write primitive of the generated encode and the scalar read
primitive of the generated decode are inverse: whatever `writeScalarCore`
emits for a valid value reads back as that value. -/
theorem readScalar_writeScalar (s : Schema) (ty : String) (v : JsVal) (w : List Nat)
    (hv : validScalarB ty v = true) (hw : writeScalarCore s ty v = .ok w) :
    readsExactly s ty w v := by
  cases v with
  | vBool b =>
    have hty : ty = "bool" := by simpa [validScalarB] using hv
    subst hty
    rw [writeScalarCore_bool] at hw
    injection hw with h
    subst h
    exact readsExactly_bool s b
  | vBytes bs =>
    simp only [validScalarB, Bool.and_eq_true, beq_iff_eq, decide_eq_true_eq,
      List.all_eq_true] at hv
    obtain ⟨⟨rfl, h1⟩, h2⟩ := hv
    rw [writeScalarCore_bytes] at hw
    injection hw with h
    subst h
    exact readsExactly_bytes s bs h1 h2
  | vStr bs =>
    simp only [validScalarB, Bool.and_eq_true, beq_iff_eq, decide_eq_true_eq,
      List.all_eq_true] at hv
    obtain ⟨⟨rfl, h1⟩, h2⟩ := hv
    rw [writeScalarCore_string] at hw
    injection hw with h
    subst h
    exact readsExactly_string s bs h1 h2
  | vInt i =>
    simp only [validScalarB] at hv
    split at hv
    · rename_i h
      simp only [Bool.or_eq_true, beq_iff_eq] at h
      simp only [Bool.and_eq_true, decide_eq_true_eq] at hv
      rcases h with (rfl | rfl) | rfl
      · rw [writeScalarCore_double] at hw
        injection hw with h'
        subst h'
        exact readsExactly_double s i hv.1 hv.2
      · rw [writeScalarCore_fixed64] at hw
        injection hw with h'
        subst h'
        exact readsExactly_fixed64 s i hv.1 hv.2
      · rw [writeScalarCore_uint64] at hw
        injection hw with h'
        subst h'
        unfold writeVarint64
        exact readsExactly_uint64 s i hv.1 hv.2
    · split at hv
      · rename_i h
        simp only [Bool.or_eq_true, beq_iff_eq] at h
        simp only [Bool.and_eq_true, decide_eq_true_eq] at hv
        rcases h with (rfl | rfl) | rfl
        · rw [writeScalarCore_float] at hw
          injection hw with h'
          subst h'
          exact readsExactly_float s i hv.1 hv.2
        · rw [writeScalarCore_fixed32] at hw
          injection hw with h'
          subst h'
          exact readsExactly_fixed32 s i hv.1 hv.2
        · rw [writeScalarCore_uint32] at hw
          injection hw with h'
          subst h'
          exact readsExactly_uint32 s i hv.1 hv.2
      · split at hv
        · rename_i h
          simp only [Bool.or_eq_true, beq_iff_eq] at h
          simp only [Bool.and_eq_true, decide_eq_true_eq] at hv
          rcases h with (rfl | rfl) | rfl
          · rw [writeScalarCore_sfixed32] at hw
            injection hw with h'
            subst h'
            exact readsExactly_sfixed32 s i hv.1 hv.2
          · rw [writeScalarCore_int32] at hw
            injection hw with h'
            subst h'
            unfold writeVarint64
            exact readsExactly_int32 s i hv.1 hv.2
          · rw [writeScalarCore_sint32] at hw
            injection hw with h'
            subst h'
            exact readsExactly_sint32 s i hv.1 hv.2
        · split at hv
          · rename_i h
            simp only [Bool.or_eq_true, beq_iff_eq] at h
            simp only [Bool.and_eq_true, decide_eq_true_eq] at hv
            rcases h with (rfl | rfl) | rfl
            · rw [writeScalarCore_sfixed64] at hw
              injection hw with h'
              subst h'
              exact readsExactly_sfixed64 s i hv.1 hv.2
            · rw [writeScalarCore_int64] at hw
              injection hw with h'
              subst h'
              unfold writeVarint64
              exact readsExactly_int64 s i hv.1 hv.2
            · rw [writeScalarCore_sint64] at hw
              injection hw with h'
              subst h'
              exact readsExactly_sint64 s i hv.1 hv.2
          · exact absurd hv (by simp)
  | vName nm => exact absurd hv (by simp [validScalarB])
  | vUndef => exact absurd hv (by simp [validScalarB])
  | vArr vs => exact absurd hv (by simp [validScalarB])
  | vMsg mm => exact absurd hv (by simp [validScalarB])

/-! ## Toolkit: single-field message round trip -/

theorem writeVarintN_length_pos (n : Nat) : 0 < (writeVarintN n).length := by
  unfold writeVarintN
  cases h : writeVarintGo 10 n with
  | nil => exact absurd h (writeVarintGo_ne_nil 10 n)
  | cons a l => simp

theorem wireTypeOf_lt8 (s : Schema) (ty : String) : wireTypeOf s ty < 8 := by
  unfold wireTypeOf
  split
  any_goals omega
  split <;> omega

/-- Encoding then decoding a single-field message reproduces the field's
value, given that the declared type's write primitive emitted `w` and that
`w` reads back as the value. -/
theorem roundtrip_single_field (s : Schema) (mname fname T : String) (t : Nat)
    (v : JsVal) (w : List Nat)
    (ht1 : 1 ≤ t) (ht2 : t < 2 ^ 29)
    (hmsg : isMessageType s T = false)
    (hvu : v ≠ .vUndef)
    (hw : writeScalarCore s T v = .ok w)
    (hread : readsExactly s T w v) :
    (do
      let bs ← encodeMessage s 4 ⟨mname, [⟨fname, T, t, false, false, {}⟩]⟩ [(fname, v)]
      decodeMessage s 2 ⟨mname, [⟨fname, T, t, false, false, {}⟩]⟩ bs)
      = .ok [(fname, v)] := by
  set f : FieldDef := ⟨fname, T, t, false, false, {}⟩ with hf
  have hjget : jsGet [(fname, v)] fname = some v := by
    simp [jsGet, List.find?]
  have hval : encodeGo s 2 (.val T v) = .ok w := by
    unfold encodeGo
    rw [hmsg]
    simpa using hw
  have hfield : encodeGo s 3 (.field1 f [(fname, v)]) = .ok (writeVarint32 (t * 8 + wireTypeOf s T) ++ w) := by
    unfold encodeGo
    simp only [hf]
    rw [if_neg (by simp)]
    rw [hjget]
    cases v with
    | vUndef => exact absurd rfl hvu
    | vBool b => dsimp only; rw [hval]; rfl
    | vInt i => dsimp only; rw [hval]; rfl
    | vStr bs => dsimp only; rw [hval]; rfl
    | vBytes bs => dsimp only; rw [hval]; rfl
    | vName nm => dsimp only; rw [hval]; rfl
    | vArr vs => dsimp only; rw [hval]; rfl
    | vMsg mm => dsimp only; rw [hval]; rfl
  have henc : encodeMessage s 4 ⟨mname, [f]⟩ [(fname, v)]
      = .ok (writeVarint32 (t * 8 + wireTypeOf s T) ++ w) := by
    unfold encodeMessage encodeGo
    rw [hfield, exceptBind_ok]
    rw [show encodeGo s 3 (.fields [] [(fname, v)]) = .ok [] from rfl, exceptBind_ok]
    simp
  have hwt8 : wireTypeOf s T < 8 := wireTypeOf_lt8 s T
  have hu32 : (t * 8 + wireTypeOf s T) % 2 ^ 32 = t * 8 + wireTypeOf s T :=
    Nat.mod_eq_of_lt (by omega)
  have hv32 : writeVarint32 (t * 8 + wireTypeOf s T) = writeVarintN (t * 8 + wireTypeOf s T) := by
    unfold writeVarint32
    rw [hu32]
  set u := t * 8 + wireTypeOf s T with hu
  set bytes := writeVarintN u ++ w with hbytes
  have hlenpos : 0 < bytes.length := by
    rw [hbytes]
    have := writeVarintN_length_pos u
    simp
    omega
  have hdec : decodeMessage s 2 ⟨mname, [f]⟩ bytes = .ok [(fname, v)] := by
    unfold decodeMessage decodeLoop
    rw [if_neg (by dsimp only; omega)]
    have hrv := readVarintRaw_write u [] w bytes.length
      (by have := pow_bound_varint; omega)
    simp only [List.nil_append, List.length_nil] at hrv
    rw [← hbytes] at hrv
    rw [hrv, exceptBind_ok]
    dsimp only
    simp only [Nat.zero_add]
    rw [hu32]
    have hdiv : u / 8 = t := by omega
    rw [hdiv, if_neg (by omega)]
    simp only [hf, List.find?]
    rw [show (t == t) = true from by simp]
    try dsimp only
    rw [hmsg]
    simp only [Bool.false_eq_true, reduceIte]
    have hr := hread (writeVarintN u) [] bytes.length
    simp only [List.append_nil] at hr
    rw [← hbytes] at hr
    rw [hr, exceptBind_ok]
    dsimp only
    rw [show jsInsert [] fname v = [(fname, v)] from rfl]
    unfold decodeLoop
    rw [if_pos (by rw [hbytes]; simp)]
    rw [exceptBind_ok]
    dsimp only
    rw [show checkRequired ⟨mname, [f]⟩ [(fname, v)] = .ok () from rfl, exceptBind_ok]
  rw [henc, exceptBind_ok, hv32]
  exact hdec

/-- A scalar keyword never resolves to the embedded-message default. -/
theorem isMessageType_scalar (s : Schema) (ty : String)
    (h : scalarTypeNames.contains ty = true) : isMessageType s ty = false := by
  unfold isMessageType
  rw [h]
  simp

/-- A valid scalar value is written successfully by the write primitive, its
type is not the embedded-message default, and it is not `undefined`. -/
theorem validScalar_unpack (s : Schema) (ty : String) (v : JsVal)
    (hv : validScalarB ty v = true) :
    ∃ w, writeScalarCore s ty v = .ok w ∧ isMessageType s ty = false ∧ v ≠ .vUndef := by
  cases v with
  | vBool b =>
    have hty : ty = "bool" := by simpa [validScalarB] using hv
    subst hty
    exact ⟨_, writeScalarCore_bool s b, isMessageType_scalar s _ rfl, by simp⟩
  | vBytes bs =>
    simp only [validScalarB, Bool.and_eq_true, beq_iff_eq] at hv
    obtain ⟨⟨rfl, -⟩, -⟩ := hv
    exact ⟨_, writeScalarCore_bytes s bs, isMessageType_scalar s _ rfl, by simp⟩
  | vStr bs =>
    simp only [validScalarB, Bool.and_eq_true, beq_iff_eq] at hv
    obtain ⟨⟨rfl, -⟩, -⟩ := hv
    exact ⟨_, writeScalarCore_string s bs, isMessageType_scalar s _ rfl, by simp⟩
  | vInt i =>
    simp only [validScalarB] at hv
    split at hv
    · rename_i h
      simp only [Bool.or_eq_true, beq_iff_eq] at h
      rcases h with (rfl | rfl) | rfl
      · exact ⟨_, writeScalarCore_double s i, isMessageType_scalar s _ rfl, by simp⟩
      · exact ⟨_, writeScalarCore_fixed64 s i, isMessageType_scalar s _ rfl, by simp⟩
      · exact ⟨_, writeScalarCore_uint64 s i, isMessageType_scalar s _ rfl, by simp⟩
    · split at hv
      · rename_i h
        simp only [Bool.or_eq_true, beq_iff_eq] at h
        rcases h with (rfl | rfl) | rfl
        · exact ⟨_, writeScalarCore_float s i, isMessageType_scalar s _ rfl, by simp⟩
        · exact ⟨_, writeScalarCore_fixed32 s i, isMessageType_scalar s _ rfl, by simp⟩
        · exact ⟨_, writeScalarCore_uint32 s i, isMessageType_scalar s _ rfl, by simp⟩
      · split at hv
        · rename_i h
          simp only [Bool.or_eq_true, beq_iff_eq] at h
          rcases h with (rfl | rfl) | rfl
          · exact ⟨_, writeScalarCore_sfixed32 s i, isMessageType_scalar s _ rfl, by simp⟩
          · exact ⟨_, writeScalarCore_int32 s i, isMessageType_scalar s _ rfl, by simp⟩
          · exact ⟨_, writeScalarCore_sint32 s i, isMessageType_scalar s _ rfl, by simp⟩
        · split at hv
          · rename_i h
            simp only [Bool.or_eq_true, beq_iff_eq] at h
            rcases h with (rfl | rfl) | rfl
            · exact ⟨_, writeScalarCore_sfixed64 s i, isMessageType_scalar s _ rfl, by simp⟩
            · exact ⟨_, writeScalarCore_int64 s i, isMessageType_scalar s _ rfl, by simp⟩
            · exact ⟨_, writeScalarCore_sint64 s i, isMessageType_scalar s _ rfl, by simp⟩
          · exact absurd hv (by simp)
  | vName nm => exact absurd hv (by simp [validScalarB])
  | vUndef => exact absurd hv (by simp [validScalarB])
  | vArr vs => exact absurd hv (by simp [validScalarB])
  | vMsg mm => exact absurd hv (by simp [validScalarB])

/-- C1: for every scalar field type and every valid value (boundary values
included), decoding the encoding of the single-field message reproduces the
value: the generated decode is a left inverse of the generated encode on
single-field messages. -/
theorem c1_scalar_roundtrip (s : Schema) (mname fname T : String) (t : Nat) (v : JsVal)
    (ht1 : 1 ≤ t) (ht2 : t < 2 ^ 29) (hv : validScalarB T v = true) :
    (do
      let bs ← encodeMessage s 4 ⟨mname, [⟨fname, T, t, false, false, {}⟩]⟩ [(fname, v)]
      decodeMessage s 2 ⟨mname, [⟨fname, T, t, false, false, {}⟩]⟩ bs)
      = .ok [(fname, v)] := by
  obtain ⟨w, hw, hmsg, hvu⟩ := validScalar_unpack s T v hv
  exact roundtrip_single_field s mname fname T t v w ht1 ht2 hmsg hvu hw
    (readScalar_writeScalar s T v w hv hw)

/-- Witness for C1 at a concrete boundary input: type `int32`, value `-1`. -/
theorem c1_scalar_roundtrip_witness :
    1 ≤ 1 ∧ 1 < 2 ^ 29 ∧ validScalarB "int32" (.vInt (-1)) = true ∧
    (do
      let bs ← encodeMessage {} 4 ⟨"M", [⟨"f", "int32", 1, false, false, {}⟩]⟩ [("f", .vInt (-1))]
      decodeMessage {} 2 ⟨"M", [⟨"f", "int32", 1, false, false, {}⟩]⟩ bs)
      = .ok [("f", .vInt (-1))] :=
  ⟨by omega, by omega, by rfl,
   c1_scalar_roundtrip {} "M" "f" "int32" 1 (.vInt (-1)) (by omega) (by omega) (by rfl)⟩

/-! ## C2: the packed-option validation -/

/-- C2: `generate` throws the schema-validation error (producing no codec
output, since the thrown error aborts the whole generation) exactly when some
field sets `packed = "true"` while being non-repeated or of a type outside
`packableTypes` (the numeric/bool scalars plus declared enums). -/
theorem c2_packed_validation (s : Schema) :
    (∃ e, generate s = .error e) ↔
      ∃ d ∈ s.messages, ∃ f ∈ d.fields,
        f.options.packed = some "true" ∧
          (f.repeated = false ∨ (packableTypes s).contains f.type = false) := by
  unfold generate
  constructor
  · intro ⟨e, he⟩
    cases hb : firstBadPacked s with
    | none => rw [hb] at he; exact absurd he (by simp)
    | some f =>
      unfold firstBadPacked at hb
      obtain ⟨d, hd, hfind⟩ := List.exists_of_findSome?_eq_some hb
      have hmem := List.mem_of_find?_eq_some hfind
      have hp := List.find?_some hfind
      simp only [Bool.and_eq_true, Bool.or_eq_true, Bool.not_eq_true', beq_iff_eq] at hp
      exact ⟨d, hd, f, hmem, hp.1, hp.2⟩
  · intro ⟨d, hd, f, hf, hp, hbad⟩
    cases hb : firstBadPacked s with
    | some g => exact ⟨_, rfl⟩
    | none =>
      exfalso
      unfold firstBadPacked at hb
      rw [List.findSome?_eq_none_iff] at hb
      have := hb d hd
      rw [List.find?_eq_none] at this
      have hcon := this f hf
      simp only [Bool.and_eq_true, Bool.or_eq_true, Bool.not_eq_true', beq_iff_eq,
        not_and, not_or] at hcon
      rcases hbad with h | h
      · exact absurd h (by
          have := hcon hp
          tauto)
      · exact absurd h (by
          have := hcon hp
          tauto)

/-! ## Toolkit: JavaScript lookup-object lemmas -/

theorem jsLookup_cons {α β : Type} [BEq α] (k₀ : α) (v₀ : β) (t : List (α × β)) (k' : α) :
    jsLookup ((k₀, v₀) :: t) k' = if (k₀ == k') = true then some v₀ else jsLookup t k' := by
  unfold jsLookup
  cases h : (k₀ == k') <;> simp [List.find?, h]

theorem jsLookup_insertG {α β : Type} [BEq α] [LawfulBEq α]
    (m : List (α × β)) (k k' : α) (v : β) :
    jsLookup (jsInsertG m k v) k' = if (k' == k) = true then some v else jsLookup m k' := by
  induction m with
  | nil =>
    by_cases h : k' = k
    · subst h
      simp [jsInsertG, jsLookup_cons, jsLookup]
    · rw [if_neg (by simpa using h)]
      unfold jsInsertG
      rw [jsLookup_cons, if_neg (by simpa using fun e => h e.symm)]
  | cons hd t ih =>
    obtain ⟨k₀, v₀⟩ := hd
    unfold jsInsertG
    by_cases h₀ : k₀ = k
    · subst h₀
      rw [if_pos (by simp)]
      by_cases h : k' = k₀
      · subst h
        rw [jsLookup_cons, if_pos (by simp), if_pos (by simp)]
      · rw [jsLookup_cons, if_neg (by simpa using fun e => h e.symm),
          if_neg (by simpa using h), jsLookup_cons,
          if_neg (by simpa using fun e => h e.symm)]
    · rw [if_neg (by simpa using h₀)]
      by_cases h₁ : k₀ = k'
      · subst h₁
        rw [jsLookup_cons, if_pos (by simp), if_neg (by simpa using h₀),
          jsLookup_cons, if_pos (by simp)]
      · rw [jsLookup_cons, if_neg (by simpa using h₁), ih]
        by_cases hk : k' = k
        · rw [if_pos (by simpa using hk), if_pos (by simpa using hk)]
        · rw [if_neg (by simpa using hk), if_neg (by simpa using hk),
            jsLookup_cons, if_neg (by simpa using h₁)]

theorem mem_insertG {α β : Type} [BEq α] [LawfulBEq α]
    (m : List (α × β)) (k : α) (v : β) (p : α × β) (hp : p ∈ jsInsertG m k v) :
    p ∈ m ∨ p = (k, v) := by
  induction m with
  | nil =>
    right
    simpa [jsInsertG] using hp
  | cons hd t ih =>
    obtain ⟨k₀, v₀⟩ := hd
    unfold jsInsertG at hp
    by_cases h₀ : k₀ = k
    · subst h₀
      rw [if_pos (by simp)] at hp
      rcases List.mem_cons.mp hp with h | h
      · right; simpa using h
      · left; exact List.mem_cons_of_mem _ h
    · rw [if_neg (by simpa using h₀)] at hp
      rcases List.mem_cons.mp hp with h | h
      · left; simp [h]
      · rcases ih h with h' | h'
        · left; exact List.mem_cons_of_mem _ h'
        · right; exact h'

theorem keys_mem_insertG {α β : Type} [BEq α] [LawfulBEq α]
    (m : List (α × β)) (k : α) (v : β) (a : α)
    (ha : a ∈ (jsInsertG m k v).map Prod.fst) :
    a ∈ m.map Prod.fst ∨ a = k := by
  obtain ⟨p, hp, rfl⟩ := List.mem_map.mp ha
  rcases mem_insertG m k v p hp with h | h
  · exact Or.inl (List.mem_map_of_mem _ h)
  · right; rw [h]

theorem nodup_keys_insertG {α β : Type} [BEq α] [LawfulBEq α]
    (m : List (α × β)) (k : α) (v : β)
    (h : (m.map Prod.fst).Nodup) :
    ((jsInsertG m k v).map Prod.fst).Nodup := by
  induction m with
  | nil => simp [jsInsertG]
  | cons hd t ih =>
    obtain ⟨k₀, v₀⟩ := hd
    simp only [List.map_cons, List.nodup_cons] at h
    unfold jsInsertG
    by_cases h₀ : k₀ = k
    · subst h₀
      rw [if_pos (by simp)]
      simpa using h
    · rw [if_neg (by simpa using h₀)]
      simp only [List.map_cons, List.nodup_cons]
      refine ⟨fun hin => ?_, ih h.2⟩
      rcases keys_mem_insertG t k v k₀ hin with h' | h'
      · exact h.1 h'
      · exact h₀ h'

/-! ## C8 toolkit: the enum-table fold -/

theorem enumFold_dec_lookup (ename : String) (vs : List (String × Nat)) :
    ∀ (acc : List (String × Nat) × List (Nat × String)) (n : Nat),
      jsLookup (vs.foldl (fun acc kv =>
          (jsInsertG acc.1 (normEnumKey ename kv.1) kv.2,
           jsInsertG acc.2 kv.2 (normEnumKey ename kv.1))) acc).2 n
        = match vs.reverse.find? (fun kv => kv.2 == n) with
          | some kv => some (normEnumKey ename kv.1)
          | none => jsLookup acc.2 n := by
  induction vs using List.reverseRecOn with
  | nil => intro acc n; simp
  | append_singleton l a ih =>
    intro acc n
    rw [List.foldl_append]
    simp only [List.foldl_cons, List.foldl_nil]
    rw [jsLookup_insertG, List.reverse_append]
    simp only [List.reverse_cons, List.reverse_nil, List.nil_append, List.singleton_append,
      List.find?]
    by_cases h : n = a.2
    · rw [if_pos (by simpa using h)]
      rw [show (a.2 == n) = true from by simpa using h.symm]
    · rw [if_neg (by simpa using h)]
      rw [show (a.2 == n) = false from by simpa using fun e => h e.symm]
      exact ih acc n

theorem enumFold_mem_dec (ename : String) (vs : List (String × Nat)) :
    ∀ (acc : List (String × Nat) × List (Nat × String)) (p : Nat × String),
      p ∈ (vs.foldl (fun acc kv =>
          (jsInsertG acc.1 (normEnumKey ename kv.1) kv.2,
           jsInsertG acc.2 kv.2 (normEnumKey ename kv.1))) acc).2 →
        p ∈ acc.2 ∨ ∃ kv ∈ vs, p.1 = kv.2 ∧ p.2 = normEnumKey ename kv.1 := by
  induction vs with
  | nil => intro acc p hp; exact Or.inl hp
  | cons a t ih =>
    intro acc p hp
    rw [List.foldl_cons] at hp
    rcases ih _ p hp with h | ⟨kv, hkv, h1, h2⟩
    · rcases mem_insertG _ _ _ _ h with h' | h'
      · exact Or.inl h'
      · exact Or.inr ⟨a, List.mem_cons_self a t, by simp [h'], by simp [h']⟩
    · exact Or.inr ⟨kv, List.mem_cons_of_mem _ hkv, h1, h2⟩

theorem enumFold_mem_enc (ename : String) (vs : List (String × Nat)) :
    ∀ (acc : List (String × Nat) × List (Nat × String)) (p : String × Nat),
      p ∈ (vs.foldl (fun acc kv =>
          (jsInsertG acc.1 (normEnumKey ename kv.1) kv.2,
           jsInsertG acc.2 kv.2 (normEnumKey ename kv.1))) acc).1 →
        p ∈ acc.1 ∨ ∃ kv ∈ vs, p.1 = normEnumKey ename kv.1 ∧ p.2 = kv.2 := by
  induction vs with
  | nil => intro acc p hp; exact Or.inl hp
  | cons a t ih =>
    intro acc p hp
    rw [List.foldl_cons] at hp
    rcases ih _ p hp with h | ⟨kv, hkv, h1, h2⟩
    · rcases mem_insertG _ _ _ _ h with h' | h'
      · exact Or.inl h'
      · exact Or.inr ⟨a, List.mem_cons_self a t, by simp [h'], by simp [h']⟩
    · exact Or.inr ⟨kv, List.mem_cons_of_mem _ hkv, h1, h2⟩

theorem enumFold_nodup (ename : String) (vs : List (String × Nat)) :
    ∀ (acc : List (String × Nat) × List (Nat × String)),
      (acc.2.map Prod.fst).Nodup →
      (((vs.foldl (fun acc kv =>
          (jsInsertG acc.1 (normEnumKey ename kv.1) kv.2,
           jsInsertG acc.2 kv.2 (normEnumKey ename kv.1))) acc).2).map Prod.fst).Nodup := by
  induction vs with
  | nil => intro acc h; exact h
  | cons a t ih =>
    intro acc h
    rw [List.foldl_cons]
    exact ih _ (nodup_keys_insertG _ _ _ h)

/-- C8: the generated enum tables.  Every encode-table entry pairs a
prefix-normalized value name with its unchanged integer, every decode-table
entry pairs an integer with a prefix-normalized name, the decode table
resolves an integer to the name of the last value-list entry carrying that
integer (last one wins during construction), and it holds exactly one
canonical name per integer (its keys are pairwise distinct). -/
theorem c8_enum_tables (d : EnumDef) :
    (∀ p ∈ (enumTables d).1, ∃ kv ∈ d.values, p.1 = normEnumKey d.name kv.1 ∧ p.2 = kv.2) ∧
    (∀ p ∈ (enumTables d).2, ∃ kv ∈ d.values, p.1 = kv.2 ∧ p.2 = normEnumKey d.name kv.1) ∧
    (∀ n : Nat, jsLookup (enumTables d).2 n =
      (d.values.reverse.find? (fun kv => kv.2 == n)).map (fun kv => normEnumKey d.name kv.1)) ∧
    ((enumTables d).2.map Prod.fst).Nodup := by
  refine ⟨?_, ?_, ?_, ?_⟩
  · intro p hp
    rcases enumFold_mem_enc d.name d.values ([], []) p hp with h | h
    · exact absurd h (by simp)
    · exact h
  · intro p hp
    rcases enumFold_mem_dec d.name d.values ([], []) p hp with h | h
    · exact absurd h (by simp)
    · exact h
  · intro n
    rw [show enumTables d = d.values.foldl (fun acc kv =>
        (jsInsertG acc.1 (normEnumKey d.name kv.1) kv.2,
         jsInsertG acc.2 kv.2 (normEnumKey d.name kv.1))) ([], []) from rfl]
    rw [enumFold_dec_lookup d.name d.values ([], []) n]
    cases d.values.reverse.find? (fun kv => kv.2 == n) <;> simp [jsLookup]
  · exact enumFold_nodup d.name d.values ([], []) (by simp)

/-- Witness for C8 at a concrete enum with a prefixed name and a duplicated
integer value: `Color { Color_RED = 0; GREEN = 0; }`. -/
theorem c8_enum_tables_witness :
    jsLookup (enumTables ⟨"Color", [("Color_RED", 0), ("GREEN", 0)]⟩).2 0 =
      ((⟨"Color", [("Color_RED", 0), ("GREEN", 0)]⟩ : EnumDef).values.reverse.find?
        (fun kv => kv.2 == 0)).map
        (fun kv => normEnumKey "Color" kv.1) :=
  (c8_enum_tables ⟨"Color", [("Color_RED", 0), ("GREEN", 0)]⟩).2.2.1 0

/-! ## C5 toolkit: tag emission -/

/-- For a non-message type, the value job is exactly the write primitive
(no fuel is consumed). -/
theorem encodeGo_val_scalar (s : Schema) (ty : String) (v : JsVal) (k : Nat)
    (hmsg : isMessageType s ty = false) :
    encodeGo s (k + 1) (.val ty v) = writeScalarCore s ty v := by
  unfold encodeGo
  rw [hmsg]
  simp

/-- The element loop of the generated encode: one optional tag plus one value
emission per element, concatenated in order. -/
theorem encodeGo_elems (s : Schema) (ty : String) (tw : Option Nat)
    (vs : List JsVal) (ws : List (List Nat))
    (h : List.Forall₂ (fun v w => ∀ k : Nat, encodeGo s (k + 1) (.val ty v) = .ok w) vs ws) :
    ∀ fuel : Nat, vs.length + 1 ≤ fuel →
      encodeGo s fuel (.elems tw ty vs) =
        .ok ((ws.map (fun w =>
          (match tw with | some t => writeVarint32 t | none => []) ++ w)).flatten) := by
  induction h with
  | nil =>
    intro fuel hfuel
    obtain ⟨k, rfl⟩ : ∃ k, fuel = k + 1 := ⟨fuel - 1, by omega⟩
    simp [encodeGo]
  | @cons v w vs' ws' hvw htl ih =>
    intro fuel hfuel
    obtain ⟨k, rfl⟩ : ∃ k, fuel = k + 1 := ⟨fuel - 1, by omega⟩
    obtain ⟨k', rfl⟩ : ∃ k', k = k' + 1 := ⟨k - 1, by simp at hfuel; omega⟩
    unfold encodeGo
    rw [hvw k', exceptBind_ok, ih (k' + 1) (by simp at hfuel ⊢; omega), exceptBind_ok]
    simp

/-- C5: the wire type is a pure function of the declared type with the fixed
mapping VARINT for bool/int32/int64/uint32/uint64/sint32/sint64 and declared
enums, FIXED64 for double/fixed64/sfixed64, FIXED32 for
float/fixed32/sfixed32, LENGTH_DELIMITED for string/bytes and embedded
messages; and every tag emitted for a singular occurrence or an unpacked
repeated element is `(field.tag << 3) | wireTypeOf(type)`. -/
theorem c5_wire_types (s : Schema) :
    (wireTypeOf s "bool" = 0 ∧ wireTypeOf s "int32" = 0 ∧ wireTypeOf s "int64" = 0 ∧
     wireTypeOf s "uint32" = 0 ∧ wireTypeOf s "uint64" = 0 ∧ wireTypeOf s "sint32" = 0 ∧
     wireTypeOf s "sint64" = 0 ∧
     wireTypeOf s "double" = 1 ∧ wireTypeOf s "fixed64" = 1 ∧ wireTypeOf s "sfixed64" = 1 ∧
     wireTypeOf s "float" = 5 ∧ wireTypeOf s "fixed32" = 5 ∧ wireTypeOf s "sfixed32" = 5 ∧
     wireTypeOf s "string" = 2 ∧ wireTypeOf s "bytes" = 2) ∧
    (∀ e ∈ s.enums, scalarTypeNames.contains e.name = false → wireTypeOf s e.name = 0) ∧
    (∀ ty : String, scalarTypeNames.contains ty = false →
      (s.enums.map (·.name)).contains ty = false → wireTypeOf s ty = 2) ∧
    (∀ (fuel : Nat) (f : FieldDef) (m : Msg) (v : JsVal) (w : List Nat),
      f.repeated = false → jsGet m f.name = some v → v ≠ .vUndef →
      encodeGo s fuel (.val f.type v) = .ok w →
      encodeField s (fuel + 1) f m = .ok (writeVarint32 (f.tag * 8 + wireTypeOf s f.type) ++ w)) ∧
    (∀ (fuel : Nat) (f : FieldDef) (m : Msg) (vs : List JsVal) (ws : List (List Nat)),
      f.repeated = true → isPacked s f = false → jsGet m f.name = some (.vArr vs) →
      List.Forall₂ (fun v w => ∀ k : Nat, encodeGo s (k + 1) (.val f.type v) = .ok w) vs ws →
      vs.length + 1 ≤ fuel →
      encodeField s (fuel + 1) f m =
        .ok ((ws.map (fun w => writeVarint32 (f.tag * 8 + wireTypeOf s f.type) ++ w)).flatten)) := by
  refine ⟨⟨rfl, rfl, rfl, rfl, rfl, rfl, rfl, rfl, rfl, rfl, rfl, rfl, rfl, rfl, rfl⟩,
    ?_, ?_, ?_, ?_⟩
  · intro e he hns
    unfold wireTypeOf
    split
    all_goals try (rename_i heq; rw [heq] at hns)
    all_goals try (exact absurd hns (by decide))
    rw [if_pos (List.elem_eq_true_of_mem (List.mem_map_of_mem _ he))]
  · intro ty hns henum
    unfold wireTypeOf
    split
    all_goals try (exact absurd hns (by decide))
    rw [if_neg (by rw [henum]; simp)]
  · intro fuel f m v w hrep hget hvu hval
    unfold encodeField encodeGo
    rw [hrep]
    rw [if_neg (by simp)]
    rw [hget]
    cases v with
    | vUndef => exact absurd rfl hvu
    | vBool b => dsimp only; rw [hval]; rfl
    | vInt i => dsimp only; rw [hval]; rfl
    | vStr bs => dsimp only; rw [hval]; rfl
    | vBytes bs => dsimp only; rw [hval]; rfl
    | vName nm => dsimp only; rw [hval]; rfl
    | vArr vs => dsimp only; rw [hval]; rfl
    | vMsg mm => dsimp only; rw [hval]; rfl
  · intro fuel f m vs ws hrep hpack hget hvw hfuel
    unfold encodeField encodeGo
    rw [hrep, if_pos rfl, hget]
    dsimp only
    rw [hpack]
    rw [if_neg (by simp)]
    exact encodeGo_elems s f.type (some (f.tag * 8 + wireTypeOf s f.type)) vs ws hvw fuel hfuel

/-- Witness for C5 at a concrete schema with one enum, instantiating the
enum, message-default, singular-tag and unpacked-repeated clauses. -/
theorem c5_wire_types_witness :
    wireTypeOf ⟨[⟨"Color", [("RED", 0)]⟩], []⟩ "Color" = 0 ∧
    wireTypeOf ⟨[⟨"Color", [("RED", 0)]⟩], []⟩ "Nested" = 2 ∧
    encodeField ⟨[⟨"Color", [("RED", 0)]⟩], []⟩ 2 ⟨"f", "uint32", 1, false, false, {}⟩
      [("f", .vInt 7)] = .ok (writeVarint32 (1 * 8 + 0) ++ [7]) ∧
    encodeField ⟨[⟨"Color", [("RED", 0)]⟩], []⟩ 3
      ⟨"g", "uint32", 2, false, true, ⟨some "false"⟩⟩ [("g", .vArr [.vInt 5])]
      = .ok (([[5]].map (fun w => writeVarint32 (2 * 8 + 0) ++ w)).flatten) := by
  have hs := c5_wire_types ⟨[⟨"Color", [("RED", 0)]⟩], []⟩
  refine ⟨hs.2.1 ⟨"Color", [("RED", 0)]⟩ (by simp) (by rfl),
    hs.2.2.1 "Nested" (by rfl) (by rfl),
    ?_, ?_⟩
  · have := hs.2.2.2.1 1 ⟨"f", "uint32", 1, false, false, {}⟩ [("f", .vInt 7)] (.vInt 7) [7]
      rfl (by rfl) (by simp) (by rfl)
    simpa using this
  · have := hs.2.2.2.2 2 ⟨"g", "uint32", 2, false, true, ⟨some "false"⟩⟩ [("g", .vArr [.vInt 5])]
      [.vInt 5] [[5]] rfl (by rfl) (by rfl)
      (List.Forall₂.cons (fun k => by rfl) List.Forall₂.nil) (by simp)
    simpa using this

/-! ## C3 and C10: the repeated-field encode forms -/

/-- The effective-packing test of src/js.ts line 136 holds exactly when the
field is repeated, the `packed` option is not the explicit string `"false"`,
and the type is in `packableTypes`. -/
theorem isPacked_of (s : Schema) (f : FieldDef)
    (hrep : f.repeated = true) (hpf : f.options.packed ≠ some "false")
    (hel : (packableTypes s).contains f.type = true) : isPacked s f = true := by
  unfold isPacked
  rw [hrep, hel]
  simp [bne, hpf]

/-- C3: a repeated field of pack-eligible type whose `packed` option is not
explicitly `"false"` is encoded in the packed form: the field's tag once with
wire type LENGTH_DELIMITED, a varint length equal to the byte length of the
concatenated per-element scalar encodings (no individual tags), then those
bytes. -/
theorem c3_packed_encoding (s : Schema) (f : FieldDef) (m : Msg) (vs : List JsVal)
    (ws : List (List Nat)) (fuel : Nat)
    (hrep : f.repeated = true)
    (hpf : f.options.packed ≠ some "false")
    (hel : (packableTypes s).contains f.type = true)
    (hget : jsGet m f.name = some (.vArr vs))
    (hvw : List.Forall₂ (fun v w => ∀ k : Nat, encodeGo s (k + 1) (.val f.type v) = .ok w) vs ws)
    (hfuel : vs.length + 1 ≤ fuel)
    (htag : f.tag * 8 + 2 < 2 ^ 32)
    (hlen : ws.flatten.length < 2 ^ 32) :
    encodeField s (fuel + 1) f m =
      .ok (writeVarintN (f.tag * 8 + 2) ++ writeVarintN ws.flatten.length ++ ws.flatten) := by
  unfold encodeField encodeGo
  rw [hrep, if_pos rfl, hget]
  dsimp only
  rw [isPacked_of s f hrep hpf hel, if_pos rfl]
  rw [encodeGo_elems s f.type none vs ws hvw fuel hfuel, exceptBind_ok]
  have hmap : ws.map (fun w => (match (none : Option Nat) with
      | some t => writeVarint32 t | none => []) ++ w) = ws := by
    simp
  rw [hmap]
  unfold writeVarint32
  rw [Nat.mod_eq_of_lt htag, Nat.mod_eq_of_lt hlen]

/-- Witness for C3: packed repeated `uint32` field with elements 5 and 6. -/
theorem c3_packed_encoding_witness :
    encodeField {} 4 ⟨"g", "uint32", 1, false, true, {}⟩ [("g", .vArr [.vInt 5, .vInt 6])]
      = .ok (writeVarintN (1 * 8 + 2) ++ writeVarintN 2 ++ [5, 6]) := by
  have := c3_packed_encoding {} ⟨"g", "uint32", 1, false, true, {}⟩
    [("g", .vArr [.vInt 5, .vInt 6])] [.vInt 5, .vInt 6] [[5], [6]] 3
    rfl (by decide) (by rfl) (by rfl)
    (List.Forall₂.cons (fun k => by rfl)
      (List.Forall₂.cons (fun k => by rfl) List.Forall₂.nil))
    (by simp) (by norm_num) (by norm_num)
  simpa using this

/-- C10 counterexample: a pack-eligible repeated field (`uint32`) that is
present and empty, but carries `packed = "false"`, contributes no bytes at
all — not a LENGTH_DELIMITED tag with a zero length as the claim, read over
all pack-eligible repeated fields, asserts. -/
theorem c10_counterexample :
    encodeField {} 3 ⟨"f", "uint32", 1, false, true, ⟨some "false"⟩⟩ [("f", .vArr [])]
      = .ok [] ∧
    writeVarint32 (1 * 8 + 2) ++ writeVarint32 0 ≠ [] := by
  constructor
  · rfl
  · intro h
    rcases List.append_eq_nil.mp h with ⟨h1, -⟩
    simp only [writeVarint32, writeVarintN] at h1
    exact writeVarintGo_ne_nil _ _ h1

/-- C10 (amended): a repeated field of pack-eligible type that is present and
maps to an empty sequence still emits its LENGTH_DELIMITED tag and a varint
length 0 — provided its `packed` option is not explicitly `"false"` — so the
field's contribution is not empty; whereas an absent key contributes no
bytes, and a non-pack-eligible repeated field mapped to an empty sequence
contributes no bytes. -/
theorem c10_empty_repeated (s : Schema) :
    (∀ (fuel : Nat) (f : FieldDef) (m : Msg),
      f.repeated = true → f.options.packed ≠ some "false" →
      (packableTypes s).contains f.type = true →
      jsGet m f.name = some (.vArr []) →
      encodeField s (fuel + 2) f m = .ok (writeVarint32 (f.tag * 8 + 2) ++ writeVarint32 0) ∧
        writeVarint32 (f.tag * 8 + 2) ++ writeVarint32 0 ≠ []) ∧
    (∀ (fuel : Nat) (f : FieldDef) (m : Msg),
      jsGet m f.name = none → encodeField s (fuel + 1) f m = .ok []) ∧
    (∀ (fuel : Nat) (f : FieldDef) (m : Msg),
      f.repeated = true → (packableTypes s).contains f.type = false →
      jsGet m f.name = some (.vArr []) →
      encodeField s (fuel + 2) f m = .ok []) := by
  refine ⟨?_, ?_, ?_⟩
  · intro fuel f m hrep hpf hel hget
    constructor
    · unfold encodeField encodeGo
      rw [hrep, if_pos rfl, hget]
      dsimp only
      rw [isPacked_of s f hrep hpf hel, if_pos rfl]
      rw [show encodeGo s (fuel + 1) (.elems none f.type []) = .ok [] from rfl, exceptBind_ok]
      simp
    · intro h
      rcases List.append_eq_nil.mp h with ⟨h1, -⟩
      simp only [writeVarint32, writeVarintN] at h1
      exact writeVarintGo_ne_nil _ _ h1
  · intro fuel f m hget
    unfold encodeField encodeGo
    cases hr : f.repeated
    · rw [if_neg (by simp), hget]
    · rw [if_pos rfl, hget]
  · intro fuel f m hrep hel hget
    unfold encodeField encodeGo
    rw [hrep, if_pos rfl, hget]
    dsimp only
    rw [show isPacked s f = false from by unfold isPacked; rw [hel]; simp, if_neg (by simp)]
    rw [show encodeGo s (fuel + 1) (.elems (some (f.tag * 8 + wireTypeOf s f.type)) f.type [])
        = .ok [] from rfl]

/-- Witness for the amended C10 at concrete fields: packed-default empty
`uint32` array emits tag `0x0a` and length `0`; an absent key and an empty
repeated `string` array emit nothing. -/
theorem c10_empty_repeated_witness :
    encodeField {} 2 ⟨"f", "uint32", 1, false, true, {}⟩ [("f", .vArr [])]
      = .ok (writeVarint32 (1 * 8 + 2) ++ writeVarint32 0) ∧
    encodeField {} 2 ⟨"f", "uint32", 1, false, true, {}⟩ []
      = .ok [] ∧
    encodeField {} 2 ⟨"h", "string", 1, false, true, {}⟩ [("h", .vArr [])]
      = .ok [] := by
  have h := c10_empty_repeated {}
  exact ⟨(h.1 0 ⟨"f", "uint32", 1, false, true, {}⟩ [("f", .vArr [])]
            rfl (by decide) (by rfl) (by rfl)).1,
    h.2.1 1 ⟨"f", "uint32", 1, false, true, {}⟩ [] (by rfl),
    h.2.2 0 ⟨"h", "string", 1, false, true, {}⟩ [("h", .vArr [])] rfl (by rfl) (by rfl)⟩

/-! ## C7: required-field enforcement -/

/-- The emitted required-field check equals a first-missing search over the
field list in declaration order. -/
theorem checkRequiredGo_eq (m : Msg) : ∀ flds : List FieldDef,
    checkRequiredGo m flds =
      match flds.find? (fun f => f.required && jsMissing m f.name) with
      | some f => .error ("Missing required field: " ++ f.name)
      | none => .ok () := by
  intro flds
  induction flds with
  | nil => rfl
  | cons f t ih =>
    unfold checkRequiredGo
    cases h : (f.required && jsMissing m f.name) <;>
      simp [List.find?, h, ih]

/-- C7: after the decode loop terminates with value mapping `m`, the
generated decode raises "Missing required field" naming the first required
field (in declaration order) whose key is absent from `m`, and returns `m`
without error when every required field is populated. -/
theorem c7_required_fields (s : Schema) (d : MessageDef) (fuel : Nat) (bytes : List Nat)
    (m : Msg) (b : RBuf)
    (hloop : decodeLoop s fuel d [] ⟨bytes, 0, bytes.length⟩ = .ok (m, b)) :
    (∀ f₀ : FieldDef,
      d.fields.find? (fun f => f.required && jsMissing m f.name) = some f₀ →
      decodeMessage s fuel d bytes = .error ("Missing required field: " ++ f₀.name)) ∧
    (d.fields.find? (fun f => f.required && jsMissing m f.name) = none →
      decodeMessage s fuel d bytes = .ok m) := by
  constructor
  · intro f₀ hfind
    unfold decodeMessage
    rw [hloop, exceptBind_ok]
    dsimp only
    unfold checkRequired
    rw [checkRequiredGo_eq m d.fields, hfind]
    rfl
  · intro hfind
    unfold decodeMessage
    rw [hloop, exceptBind_ok]
    dsimp only
    unfold checkRequired
    rw [checkRequiredGo_eq m d.fields, hfind]
    rfl

/-- Witness for C7: decoding empty bytes against a message with a required
`int32` field `a` raises the error naming `a`; after decoding bytes that
populate `a`, the same decode succeeds. -/
theorem c7_required_fields_witness :
    decodeMessage {} 1 ⟨"M", [⟨"a", "int32", 1, true, false, {}⟩]⟩ []
      = .error ("Missing required field: " ++ "a") ∧
    decodeMessage {} 2 ⟨"M", [⟨"a", "int32", 1, true, false, {}⟩]⟩ [8, 7]
      = .ok [("a", .vInt 7)] :=
  ⟨(c7_required_fields {} ⟨"M", [⟨"a", "int32", 1, true, false, {}⟩]⟩ 1 [] [] ⟨[], 0, 0⟩
      (by rfl)).1 ⟨"a", "int32", 1, true, false, {}⟩ (by rfl),
   (c7_required_fields {} ⟨"M", [⟨"a", "int32", 1, true, false, {}⟩]⟩ 2 [8, 7]
      [("a", .vInt 7)] ⟨[8, 7], 2, 2⟩ (by rfl)).2 (by rfl)⟩

/-! ## Decode-loop toolkit for skipping and packed reads -/

/-- A pack-eligible type is never the embedded-message default. -/
theorem not_message_of_packable (s : Schema) (ty : String)
    (hel : (packableTypes s).contains ty = true) : isMessageType s ty = false := by
  unfold packableTypes at hel
  rcases List.mem_append.mp (List.mem_of_elem_eq_true hel) with hbase | henum
  · have hc : scalarTypeNames.contains ty = true := by
      fin_cases hbase <;> decide
    unfold isMessageType
    rw [hc]
    simp
  · unfold isMessageType
    have hc : ((s.enums.map (fun x => x.name)).contains ty) = true :=
      List.elem_eq_true_of_mem henum
    rw [hc]
    simp

/-- The element-array initialization of src/js.ts line 279 under the two
states a decoded message exhibits: a stored array, or an absent property. -/
theorem getValuesArr_of (m : Msg) (k : String) (prev : List JsVal)
    (h : jsGet m k = some (.vArr prev) ∨ (jsGet m k = none ∧ prev = [])) :
    getValuesArr m k = .ok prev := by
  unfold getValuesArr
  rcases h with h | ⟨h, rfl⟩
  · rw [h]
    simp [jsTruthy]
  · rw [h]

/-- A signed-32 varint read over a written small length. -/
theorem readVarint32S_write (L : Nat) (pre post : List Nat) (lim : Nat)
    (hL : L < 2 ^ 31) :
    readVarint32S ⟨pre ++ writeVarintN L ++ post, pre.length, lim⟩ =
      .ok ((L : Int),
           ⟨pre ++ writeVarintN L ++ post, pre.length + (writeVarintN L).length, lim⟩) := by
  unfold readVarint32S
  rw [readVarintRaw_write L pre post lim (by have := pow_bound_varint; omega), exceptBind_ok]
  dsimp only
  rw [toInt32_of_lt (by omega)]

/-- `pushTemporaryLength` over a written length prefix followed by at least
that many bytes: returns the old limit and narrows to the declared region. -/
theorem pushTemporaryLength_write (L : Nat) (pre body post : List Nat) (lim : Nat)
    (hL : L < 2 ^ 31) (hbody : body.length = L) :
    pushTemporaryLength ⟨pre ++ writeVarintN L ++ (body ++ post), pre.length, lim⟩ =
      .ok (lim, ⟨pre ++ writeVarintN L ++ (body ++ post),
                 pre.length + (writeVarintN L).length,
                 pre.length + (writeVarintN L).length + L⟩) := by
  unfold pushTemporaryLength
  rw [readVarint32S_write L pre (body ++ post) lim hL, exceptBind_ok]
  dsimp only
  rw [if_pos (by constructor <;> [positivity; · simp [List.length_append]; omega])]
  simp only [Except.ok.injEq, Prod.mk.injEq, RBuf.mk.injEq, true_and]
  omega

/-- Skipping a fixed number of bytes inside the store. -/
theorem skipI_at (data : List Nat) (off : Nat) (lim : Nat) (k : Nat)
    (h : off + k ≤ data.length) :
    RBuf.skipI ⟨data, off, lim⟩ (k : Int) = .ok ⟨data, off + k, lim⟩ := by
  unfold RBuf.skipI
  rw [if_pos (by constructor <;> [positivity; · simp; exact_mod_cast h])]
  simp only [Except.ok.injEq, RBuf.mk.injEq, true_and]
  constructor
  · omega
  · trivial

/-- The unknown-field varint skip loop consumes exactly a run of
high-bit bytes followed by one terminating byte — with no bound on the run's
length beyond the supplied fuel. -/
theorem skipVarintBytes_run (hs : List Nat) :
    ∀ (pre post : List Nat) (b' lim : Nat) (k : Nat),
      (∀ x ∈ hs, 128 ≤ x ∧ x < 256) → b' < 128 → hs.length + 1 ≤ k →
      skipVarintBytes k ⟨pre ++ hs ++ b' :: post, pre.length, lim⟩ =
        .ok ⟨pre ++ hs ++ b' :: post, pre.length + hs.length + 1, lim⟩ := by
  induction hs with
  | nil =>
    intro pre post b' lim k hh hb hk
    obtain ⟨k', rfl⟩ : ∃ k', k = k' + 1 := ⟨k - 1, by omega⟩
    unfold skipVarintBytes
    simp only [List.append_nil, List.nil_append]
    rw [readByte_cons pre b' post lim, exceptBind_ok]
    dsimp only
    rw [if_neg (by omega)]
    simp
  | cons h t ih =>
    intro pre post b' lim k hh hb hk
    obtain ⟨k', rfl⟩ : ∃ k', k = k' + 1 := ⟨k - 1, by omega⟩
    unfold skipVarintBytes
    have e1 : pre ++ (h :: t) ++ b' :: post = pre ++ h :: (t ++ b' :: post) := by simp
    rw [e1, readByte_cons pre h (t ++ b' :: post) lim, exceptBind_ok]
    dsimp only
    have hh1 := hh h (by simp)
    rw [Nat.mod_eq_of_lt hh1.2, if_pos (by omega)]
    have e2 : pre ++ h :: (t ++ b' :: post) = (pre ++ [h]) ++ t ++ b' :: post := by simp
    have e3 : pre.length + 1 = (pre ++ [h]).length := by simp
    rw [e2, e3, ih (pre ++ [h]) post b' lim k'
      (fun x hx => hh x (by simp [hx])) hb (by simp at hk ⊢; omega)]
    simp only [Except.ok.injEq, RBuf.mk.injEq, List.length_append, List.length_cons,
      List.length_nil, true_and]
    constructor
    · omega
    · trivial

/-- The packed inner read loop over a concatenation of per-element
encodings, each reading back exactly: appends the decoded elements in order
and stops exactly at the narrowed limit. -/
theorem packedReadLoop_run (s : Schema) (ty : String)
    (ws : List (List Nat)) (ds : List JsVal)
    (h : List.Forall₂ (fun w dv => readsExactly s ty w dv ∧ w ≠ []) ws ds) :
    ∀ (acc : List JsVal) (pre post : List Nat) (k : Nat),
      ws.length + 1 ≤ k →
      packedReadLoop s ty k acc
          ⟨pre ++ ws.flatten ++ post, pre.length, pre.length + ws.flatten.length⟩ =
        .ok (acc ++ ds,
             ⟨pre ++ ws.flatten ++ post, pre.length + ws.flatten.length,
              pre.length + ws.flatten.length⟩) := by
  induction h with
  | nil =>
    intro acc pre post k hk
    obtain ⟨k', rfl⟩ : ∃ k', k = k' + 1 := ⟨k - 1, by omega⟩
    unfold packedReadLoop
    rw [if_pos (by simp)]
    simp
  | @cons w dv ws' ds' hwd htl ih =>
    intro acc pre post k hk
    obtain ⟨k', rfl⟩ : ∃ k', k = k' + 1 := ⟨k - 1, by omega⟩
    unfold packedReadLoop
    have hwne : w ≠ [] := hwd.2
    have hwlen : 0 < w.length := List.length_pos.mpr hwne
    rw [if_neg (by simp only [List.flatten_cons, List.length_append]; omega)]
    have e1 : pre ++ (w :: ws').flatten ++ post = pre ++ w ++ (ws'.flatten ++ post) := by
      simp
    rw [e1]
    rw [hwd.1 pre (ws'.flatten ++ post) (pre.length + (w :: ws').flatten.length)]
    rw [exceptBind_ok]
    dsimp only
    have e2 : pre ++ w ++ (ws'.flatten ++ post) = (pre ++ w) ++ ws'.flatten ++ post := by
      simp
    have e3 : pre.length + w.length = (pre ++ w).length := by simp
    have e4 : pre.length + (w :: ws').flatten.length = (pre ++ w).length + ws'.flatten.length := by
      simp
      omega
    rw [e2, e3, e4, ih (acc ++ [dv]) (pre ++ w) post k'
      (by simp only [List.length_cons] at hk; omega)]
    simp only [Except.ok.injEq, Prod.mk.injEq, RBuf.mk.injEq, List.length_append,
      List.flatten_cons, true_and]
    exact ⟨by simp, trivial⟩

/-! ## C6 helpers: one decode-loop iteration over an unknown field -/

theorem tagval_lt (n wt : Nat) (hn2 : n < 2 ^ 29) (hwt : wt < 8) : 8 * n + wt < 2 ^ 32 := by
  omega

theorem decodeLoop_skip_varint (s : Schema) (d : MessageDef) (m : Msg) (n : Nat)
    (fuel : Nat) (pre hs post : List Nat) (b' : Nat)
    (hn1 : 1 ≤ n) (hn2 : n < 2 ^ 29)
    (hnone : d.fields.find? (fun f => f.tag == n) = none)
    (hh : ∀ x ∈ hs, 128 ≤ x ∧ x < 256) (hb : b' < 128)
    (hfuel : hs.length + 1 ≤ fuel) :
    decodeLoop s (fuel + 1) d m
        ⟨pre ++ writeVarintN (8 * n) ++ (hs ++ b' :: post), pre.length,
         (pre ++ writeVarintN (8 * n) ++ (hs ++ b' :: post)).length⟩ =
      decodeLoop s fuel d m
        ⟨pre ++ writeVarintN (8 * n) ++ (hs ++ b' :: post),
         pre.length + (writeVarintN (8 * n)).length + hs.length + 1,
         (pre ++ writeVarintN (8 * n) ++ (hs ++ b' :: post)).length⟩ := by
  have htagpos := writeVarintN_length_pos (8 * n)
  unfold decodeLoop
  rw [if_neg (by simp only [List.length_append]; omega)]
  rw [readVarintRaw_write (8 * n) pre (hs ++ b' :: post) _
    (by have := pow_bound_varint; omega), exceptBind_ok]
  dsimp only
  have hu : 8 * n % 2 ^ 32 = 8 * n := Nat.mod_eq_of_lt (by omega)
  rw [hu]
  have hdiv : 8 * n / 8 = n := by omega
  have hmod : 8 * n % 8 = 0 := by omega
  rw [hdiv, hmod, if_neg (by omega), hnone]
  rw [show skipUnknownField fuel
      ⟨pre ++ writeVarintN (8 * n) ++ (hs ++ b' :: post),
       pre.length + (writeVarintN (8 * n)).length,
       (pre ++ writeVarintN (8 * n) ++ (hs ++ b' :: post)).length⟩ 0
    = skipVarintBytes fuel
      ⟨pre ++ writeVarintN (8 * n) ++ (hs ++ b' :: post),
       pre.length + (writeVarintN (8 * n)).length,
       (pre ++ writeVarintN (8 * n) ++ (hs ++ b' :: post)).length⟩ from rfl]
  have e1 : pre ++ writeVarintN (8 * n) ++ (hs ++ b' :: post)
      = (pre ++ writeVarintN (8 * n)) ++ hs ++ b' :: post := by simp
  have e2 : pre.length + (writeVarintN (8 * n)).length
      = (pre ++ writeVarintN (8 * n)).length := by simp
  rw [e1, e2, skipVarintBytes_run hs (pre ++ writeVarintN (8 * n)) post b' _ fuel hh hb hfuel,
    exceptBind_ok]
  rw [← decodeLoop.eq_def]

/-- One iteration of the decode loop, unfolded (definitional). -/
theorem decodeLoop_succ (s : Schema) (fuel : Nat) (d : MessageDef) (m : Msg) (b : RBuf) :
    decodeLoop s (fuel + 1) d m b =
      (if b.lim ≤ b.off then .ok (m, b)
      else do
        let (n, b₀) ← readVarintRaw b
        let tagU := n % 2 ^ 32
        if tagU / 8 = 0 then .ok (m, b₀)
        else
          match d.fields.find? (fun f => f.tag == tagU / 8) with
          | none => do
            let b₁ ← skipUnknownField fuel b₀ (tagU % 8)
            decodeLoop s fuel d m b₁
          | some f =>
            if isMessageType s f.type then
              match s.messages.find? (fun dd => dd.name == f.type) with
              | none => .error ("Unknown type: " ++ f.type)
              | some nd => do
                let (outer, b₁) ← pushTemporaryLength b₀
                let (mm, b₂) ← decodeLoop s fuel nd [] b₁
                let _ ← checkRequired nd mm
                let b₃ := { b₂ with lim := outer }
                if f.repeated then do
                  let cur ← getValuesArr m f.name
                  decodeLoop s fuel d (jsInsert m f.name (.vArr (cur ++ [.vMsg mm]))) b₃
                else
                  decodeLoop s fuel d (jsInsert m f.name (.vMsg mm)) b₃
            else if f.repeated then do
              let cur ← getValuesArr m f.name
              if (packableTypes s).contains f.type then
                if tagU % 8 = 2 then do
                  let (outer, b₁) ← pushTemporaryLength b₀
                  let (vs, b₂) ← packedReadLoop s f.type fuel [] b₁
                  let b₃ := { b₂ with lim := outer }
                  decodeLoop s fuel d (jsInsert m f.name (.vArr (cur ++ vs))) b₃
                else do
                  let (v, b₁) ← readScalarSimple s f.type b₀
                  decodeLoop s fuel d (jsInsert m f.name (.vArr (cur ++ [v]))) b₁
              else do
                let (v, b₁) ← readScalarSimple s f.type b₀
                decodeLoop s fuel d (jsInsert m f.name (.vArr (cur ++ [v]))) b₁
            else do
              let (v, b₁) ← readScalarSimple s f.type b₀
              decodeLoop s fuel d (jsInsert m f.name v) b₁) := rfl

theorem decodeLoop_skip_lengthdelim (s : Schema) (d : MessageDef) (m : Msg) (n L : Nat)
    (fuel : Nat) (pre body post : List Nat)
    (hn1 : 1 ≤ n) (hn2 : n < 2 ^ 29)
    (hnone : d.fields.find? (fun f => f.tag == n) = none)
    (hL : L < 2 ^ 31) (hbody : body.length = L) :
    decodeLoop s (fuel + 1) d m
        ⟨pre ++ writeVarintN (8 * n + 2) ++ (writeVarintN L ++ (body ++ post)), pre.length,
         (pre ++ writeVarintN (8 * n + 2) ++ (writeVarintN L ++ (body ++ post))).length⟩ =
      decodeLoop s fuel d m
        ⟨pre ++ writeVarintN (8 * n + 2) ++ (writeVarintN L ++ (body ++ post)),
         pre.length + (writeVarintN (8 * n + 2)).length + (writeVarintN L).length + L,
         (pre ++ writeVarintN (8 * n + 2) ++ (writeVarintN L ++ (body ++ post))).length⟩ := by
  have htagpos := writeVarintN_length_pos (8 * n + 2)
  rw [decodeLoop_succ]
  rw [if_neg (by simp only [List.length_append]; omega)]
  rw [readVarintRaw_write (8 * n + 2) pre (writeVarintN L ++ (body ++ post)) _
    (by have := pow_bound_varint; omega), exceptBind_ok]
  dsimp only
  have hu : (8 * n + 2) % 2 ^ 32 = 8 * n + 2 := Nat.mod_eq_of_lt (by omega)
  have hdiv : (8 * n + 2) / 8 = n := by omega
  have hmod : (8 * n + 2) % 8 = 2 := by omega
  rw [hu, hdiv, hmod, if_neg (by omega), hnone]
  unfold skipUnknownField
  have e2 : pre.length + (writeVarintN (8 * n + 2)).length
      = (pre ++ writeVarintN (8 * n + 2)).length := by simp
  have e1 : pre ++ writeVarintN (8 * n + 2) ++ (writeVarintN L ++ (body ++ post))
      = (pre ++ writeVarintN (8 * n + 2)) ++ writeVarintN L ++ (body ++ post) := by simp
  rw [e2, e1, readVarint32S_write L (pre ++ writeVarintN (8 * n + 2)) (body ++ post) _ hL,
    exceptBind_ok]
  dsimp only
  rw [show ((L : Int)) = ((L : Nat) : Int) from rfl]
  rw [skipI_at _ _ _ L (by simp [List.length_append]; omega), exceptBind_ok]

theorem decodeLoop_skip_fixed4 (s : Schema) (d : MessageDef) (m : Msg) (n : Nat)
    (fuel : Nat) (pre body post : List Nat)
    (hn1 : 1 ≤ n) (hn2 : n < 2 ^ 29)
    (hnone : d.fields.find? (fun f => f.tag == n) = none)
    (hbody : body.length = 4) :
    decodeLoop s (fuel + 1) d m
        ⟨pre ++ writeVarintN (8 * n + 5) ++ (body ++ post), pre.length,
         (pre ++ writeVarintN (8 * n + 5) ++ (body ++ post)).length⟩ =
      decodeLoop s fuel d m
        ⟨pre ++ writeVarintN (8 * n + 5) ++ (body ++ post),
         pre.length + (writeVarintN (8 * n + 5)).length + 4,
         (pre ++ writeVarintN (8 * n + 5) ++ (body ++ post)).length⟩ := by
  have htagpos := writeVarintN_length_pos (8 * n + 5)
  rw [decodeLoop_succ]
  rw [if_neg (by simp only [List.length_append]; omega)]
  rw [readVarintRaw_write (8 * n + 5) pre (body ++ post) _
    (by have := pow_bound_varint; omega), exceptBind_ok]
  dsimp only
  have hu : (8 * n + 5) % 2 ^ 32 = 8 * n + 5 := Nat.mod_eq_of_lt (by omega)
  have hdiv : (8 * n + 5) / 8 = n := by omega
  have hmod : (8 * n + 5) % 8 = 5 := by omega
  rw [hu, hdiv, hmod, if_neg (by omega), hnone]
  unfold skipUnknownField
  rw [show ((4 : Int)) = ((4 : Nat) : Int) from rfl]
  rw [skipI_at _ _ _ 4 (by simp [List.length_append]; omega), exceptBind_ok]

theorem decodeLoop_skip_fixed8 (s : Schema) (d : MessageDef) (m : Msg) (n : Nat)
    (fuel : Nat) (pre body post : List Nat)
    (hn1 : 1 ≤ n) (hn2 : n < 2 ^ 29)
    (hnone : d.fields.find? (fun f => f.tag == n) = none)
    (hbody : body.length = 8) :
    decodeLoop s (fuel + 1) d m
        ⟨pre ++ writeVarintN (8 * n + 1) ++ (body ++ post), pre.length,
         (pre ++ writeVarintN (8 * n + 1) ++ (body ++ post)).length⟩ =
      decodeLoop s fuel d m
        ⟨pre ++ writeVarintN (8 * n + 1) ++ (body ++ post),
         pre.length + (writeVarintN (8 * n + 1)).length + 8,
         (pre ++ writeVarintN (8 * n + 1) ++ (body ++ post)).length⟩ := by
  have htagpos := writeVarintN_length_pos (8 * n + 1)
  rw [decodeLoop_succ]
  rw [if_neg (by simp only [List.length_append]; omega)]
  rw [readVarintRaw_write (8 * n + 1) pre (body ++ post) _
    (by have := pow_bound_varint; omega), exceptBind_ok]
  dsimp only
  have hu : (8 * n + 1) % 2 ^ 32 = 8 * n + 1 := Nat.mod_eq_of_lt (by omega)
  have hdiv : (8 * n + 1) / 8 = n := by omega
  have hmod : (8 * n + 1) % 8 = 1 := by omega
  rw [hu, hdiv, hmod, if_neg (by omega), hnone]
  unfold skipUnknownField
  rw [show ((8 : Int)) = ((8 : Nat) : Int) from rfl]
  rw [skipI_at _ _ _ 8 (by simp [List.length_append]; omega), exceptBind_ok]

theorem decodeLoop_skip_unimplemented (s : Schema) (d : MessageDef) (m : Msg) (n wt : Nat)
    (fuel : Nat) (pre post : List Nat)
    (hn1 : 1 ≤ n) (hn2 : n < 2 ^ 29)
    (hnone : d.fields.find? (fun f => f.tag == n) = none)
    (hwt : wt = 3 ∨ wt = 4) :
    decodeLoop s (fuel + 1) d m
        ⟨pre ++ writeVarintN (8 * n + wt) ++ post, pre.length,
         (pre ++ writeVarintN (8 * n + wt) ++ post).length⟩ =
      .error ("Unimplemented type: " ++ toString wt) := by
  have htagpos := writeVarintN_length_pos (8 * n + wt)
  rw [decodeLoop_succ]
  rw [if_neg (by simp only [List.length_append]; omega)]
  rw [readVarintRaw_write (8 * n + wt) pre post _
    (by have := pow_bound_varint; omega), exceptBind_ok]
  dsimp only
  have hu : (8 * n + wt) % 2 ^ 32 = 8 * n + wt := Nat.mod_eq_of_lt (by omega)
  have hdiv : (8 * n + wt) / 8 = n := by omega
  have hmod : (8 * n + wt) % 8 = wt := by omega
  rw [hu, hdiv, hmod, if_neg (by omega), hnone]
  rcases hwt with rfl | rfl <;> rfl

/-- C6: a tag whose field number matches no declared field is skipped by its
wire-type bits — VARINT: consume bytes while the high bit is set (however
many); LENGTH_DELIMITED: read a varint length then skip that many bytes;
FIXED32: skip 4 bytes; FIXED64: skip 8 bytes — after which the decode loop
continues with the next tag and no error is raised; wire types 3 and 4 are a
fatal decode error naming the unimplemented type. -/
theorem c6_unknown_field_skipping (s : Schema) (d : MessageDef) (m : Msg) (n : Nat)
    (hn1 : 1 ≤ n) (hn2 : n < 2 ^ 29)
    (hnone : d.fields.find? (fun f => f.tag == n) = none) :
    (∀ (fuel : Nat) (pre hs post : List Nat) (b' : Nat),
      (∀ x ∈ hs, 128 ≤ x ∧ x < 256) → b' < 128 → hs.length + 1 ≤ fuel →
      decodeLoop s (fuel + 1) d m
          ⟨pre ++ writeVarintN (8 * n) ++ (hs ++ b' :: post), pre.length,
           (pre ++ writeVarintN (8 * n) ++ (hs ++ b' :: post)).length⟩ =
        decodeLoop s fuel d m
          ⟨pre ++ writeVarintN (8 * n) ++ (hs ++ b' :: post),
           pre.length + (writeVarintN (8 * n)).length + hs.length + 1,
           (pre ++ writeVarintN (8 * n) ++ (hs ++ b' :: post)).length⟩) ∧
    (∀ (fuel L : Nat) (pre body post : List Nat),
      L < 2 ^ 31 → body.length = L →
      decodeLoop s (fuel + 1) d m
          ⟨pre ++ writeVarintN (8 * n + 2) ++ (writeVarintN L ++ (body ++ post)), pre.length,
           (pre ++ writeVarintN (8 * n + 2) ++ (writeVarintN L ++ (body ++ post))).length⟩ =
        decodeLoop s fuel d m
          ⟨pre ++ writeVarintN (8 * n + 2) ++ (writeVarintN L ++ (body ++ post)),
           pre.length + (writeVarintN (8 * n + 2)).length + (writeVarintN L).length + L,
           (pre ++ writeVarintN (8 * n + 2) ++ (writeVarintN L ++ (body ++ post))).length⟩) ∧
    (∀ (fuel : Nat) (pre body post : List Nat),
      body.length = 4 →
      decodeLoop s (fuel + 1) d m
          ⟨pre ++ writeVarintN (8 * n + 5) ++ (body ++ post), pre.length,
           (pre ++ writeVarintN (8 * n + 5) ++ (body ++ post)).length⟩ =
        decodeLoop s fuel d m
          ⟨pre ++ writeVarintN (8 * n + 5) ++ (body ++ post),
           pre.length + (writeVarintN (8 * n + 5)).length + 4,
           (pre ++ writeVarintN (8 * n + 5) ++ (body ++ post)).length⟩) ∧
    (∀ (fuel : Nat) (pre body post : List Nat),
      body.length = 8 →
      decodeLoop s (fuel + 1) d m
          ⟨pre ++ writeVarintN (8 * n + 1) ++ (body ++ post), pre.length,
           (pre ++ writeVarintN (8 * n + 1) ++ (body ++ post)).length⟩ =
        decodeLoop s fuel d m
          ⟨pre ++ writeVarintN (8 * n + 1) ++ (body ++ post),
           pre.length + (writeVarintN (8 * n + 1)).length + 8,
           (pre ++ writeVarintN (8 * n + 1) ++ (body ++ post)).length⟩) ∧
    (∀ (wt fuel : Nat) (pre post : List Nat),
      wt = 3 ∨ wt = 4 →
      decodeLoop s (fuel + 1) d m
          ⟨pre ++ writeVarintN (8 * n + wt) ++ post, pre.length,
           (pre ++ writeVarintN (8 * n + wt) ++ post).length⟩ =
        .error ("Unimplemented type: " ++ toString wt)) := by
  refine ⟨?_, ?_, ?_, ?_, ?_⟩
  · intro fuel pre hs post b' hh hb hfuel
    exact decodeLoop_skip_varint s d m n fuel pre hs post b' hn1 hn2 hnone hh hb hfuel
  · intro fuel L pre body post hL hbody
    exact decodeLoop_skip_lengthdelim s d m n L fuel pre body post hn1 hn2 hnone hL hbody
  · intro fuel pre body post hbody
    exact decodeLoop_skip_fixed4 s d m n fuel pre body post hn1 hn2 hnone hbody
  · intro fuel pre body post hbody
    exact decodeLoop_skip_fixed8 s d m n fuel pre body post hn1 hn2 hnone hbody
  · intro wt fuel pre post hwt
    exact decodeLoop_skip_unimplemented s d m n wt fuel pre post hn1 hn2 hnone hwt

/-- Witness for C6 on a message with no declared fields, exercising all four
skippable wire types and one unimplemented one at field number 1. -/
theorem c6_unknown_field_skipping_witness :
    (decodeLoop {} 3 ⟨"M", []⟩ []
        ⟨[] ++ writeVarintN (8 * 1) ++ ([128] ++ 0 :: []), ([] : List Nat).length,
         ([] ++ writeVarintN (8 * 1) ++ ([128] ++ 0 :: [])).length⟩ =
      decodeLoop {} 2 ⟨"M", []⟩ []
        ⟨[] ++ writeVarintN (8 * 1) ++ ([128] ++ 0 :: []),
         ([] : List Nat).length + (writeVarintN (8 * 1)).length + [128].length + 1,
         ([] ++ writeVarintN (8 * 1) ++ ([128] ++ 0 :: [])).length⟩) ∧
    (decodeLoop {} 2 ⟨"M", []⟩ []
        ⟨[] ++ writeVarintN (8 * 1 + 2) ++ (writeVarintN 2 ++ ([9, 9] ++ [])), ([] : List Nat).length,
         ([] ++ writeVarintN (8 * 1 + 2) ++ (writeVarintN 2 ++ ([9, 9] ++ []))).length⟩ =
      decodeLoop {} 1 ⟨"M", []⟩ []
        ⟨[] ++ writeVarintN (8 * 1 + 2) ++ (writeVarintN 2 ++ ([9, 9] ++ [])),
         ([] : List Nat).length + (writeVarintN (8 * 1 + 2)).length + (writeVarintN 2).length + 2,
         ([] ++ writeVarintN (8 * 1 + 2) ++ (writeVarintN 2 ++ ([9, 9] ++ []))).length⟩) ∧
    (decodeLoop {} 2 ⟨"M", []⟩ []
        ⟨[] ++ writeVarintN (8 * 1 + 5) ++ ([1, 2, 3, 4] ++ []), ([] : List Nat).length,
         ([] ++ writeVarintN (8 * 1 + 5) ++ ([1, 2, 3, 4] ++ [])).length⟩ =
      decodeLoop {} 1 ⟨"M", []⟩ []
        ⟨[] ++ writeVarintN (8 * 1 + 5) ++ ([1, 2, 3, 4] ++ []),
         ([] : List Nat).length + (writeVarintN (8 * 1 + 5)).length + 4,
         ([] ++ writeVarintN (8 * 1 + 5) ++ ([1, 2, 3, 4] ++ [])).length⟩) ∧
    (decodeLoop {} 2 ⟨"M", []⟩ []
        ⟨[] ++ writeVarintN (8 * 1 + 1) ++ ([1, 2, 3, 4, 5, 6, 7, 8] ++ []), ([] : List Nat).length,
         ([] ++ writeVarintN (8 * 1 + 1) ++ ([1, 2, 3, 4, 5, 6, 7, 8] ++ [])).length⟩ =
      decodeLoop {} 1 ⟨"M", []⟩ []
        ⟨[] ++ writeVarintN (8 * 1 + 1) ++ ([1, 2, 3, 4, 5, 6, 7, 8] ++ []),
         ([] : List Nat).length + (writeVarintN (8 * 1 + 1)).length + 8,
         ([] ++ writeVarintN (8 * 1 + 1) ++ ([1, 2, 3, 4, 5, 6, 7, 8] ++ [])).length⟩) ∧
    (decodeLoop {} 2 ⟨"M", []⟩ []
        ⟨[] ++ writeVarintN (8 * 1 + 3) ++ [], ([] : List Nat).length,
         ([] ++ writeVarintN (8 * 1 + 3) ++ []).length⟩ =
      .error ("Unimplemented type: " ++ toString 3)) := by
  have h := c6_unknown_field_skipping {} ⟨"M", []⟩ [] 1 (by omega) (by omega) rfl
  exact ⟨h.1 2 [] [128] [] 0 (by decide) (by decide) (by decide),
    h.2.1 1 2 [] [9, 9] [] (by decide) (by decide),
    h.2.2.1 1 [] [1, 2, 3, 4] [] (by decide),
    h.2.2.2.1 1 [] [1, 2, 3, 4, 5, 6, 7, 8] [] (by decide),
    h.2.2.2.2 3 1 [] [] (Or.inl rfl)⟩

/-! ## C9: the varint 10-byte bound and the unbounded skip loop -/

theorem readVarintGo_truncated : ∀ (k : Nat) (bs pre post : List Nat) (lim mult acc : Nat),
    bs.length = k → (∀ x ∈ bs, 128 ≤ x ∧ x < 256) →
    readVarintGo k mult acc ⟨pre ++ bs ++ post, pre.length, lim⟩ =
      .error "Truncated varint" := by
  intro k
  induction k with
  | zero => intro bs pre post lim mult acc hlen hh; rfl
  | succ k ih =>
    intro bs pre post lim mult acc hlen hh
    cases bs with
    | nil => simp at hlen
    | cons x t =>
      unfold readVarintGo
      have e1 : pre ++ (x :: t) ++ post = pre ++ x :: (t ++ post) := by simp
      rw [e1, readByte_cons pre x (t ++ post) lim, exceptBind_ok]
      dsimp only
      have hx := hh x (by simp)
      rw [Nat.mod_eq_of_lt hx.2, if_neg (by omega)]
      have e2 : pre ++ x :: (t ++ post) = (pre ++ [x]) ++ t ++ post := by simp
      have e3 : pre.length + 1 = (pre ++ [x]).length := by simp
      rw [e2, e3, ih t (pre ++ [x]) post lim (mult * 128) (acc + (x - 128) * mult)
        (by simp at hlen; omega) (fun y hy => hh y (by simp [hy]))]

/-- C9 (amended): every varint performed through the varint decoder during
decode (tags, lengths, varint-typed values) is subject to the 10-byte bound —
ten bytes with the high bit set and no terminator are a malformed-input
error — but the unknown-field skip for wire type VARINT consumes bytes while
the high bit is set with no such bound: a run of any length followed by a
terminating byte is skipped without error. -/
theorem c9_varint_ten_byte_bound :
    (∀ (bs pre post : List Nat) (lim : Nat),
      bs.length = 10 → (∀ x ∈ bs, 128 ≤ x ∧ x < 256) →
      readVarintRaw ⟨pre ++ bs ++ post, pre.length, lim⟩ = .error "Truncated varint") ∧
    (∀ (hs pre post : List Nat) (b' lim k : Nat),
      (∀ x ∈ hs, 128 ≤ x ∧ x < 256) → b' < 128 → hs.length + 1 ≤ k →
      skipVarintBytes k ⟨pre ++ hs ++ b' :: post, pre.length, lim⟩ =
        .ok ⟨pre ++ hs ++ b' :: post, pre.length + hs.length + 1, lim⟩) := by
  constructor
  · intro bs pre post lim hlen hh
    exact readVarintGo_truncated 10 bs pre post lim 1 0 hlen hh
  · intro hs pre post b' lim k hh hb hk
    exact skipVarintBytes_run hs pre post b' lim k hh hb hk

/-- Witness for the amended C9: ten continuation bytes are a truncated-varint
error for the varint reader, while the unknown-field skip loop accepts an
eleven-byte run. -/
theorem c9_varint_ten_byte_bound_witness :
    readVarintRaw ⟨[] ++ [128, 129, 130, 131, 132, 133, 134, 135, 136, 137] ++ [],
        ([] : List Nat).length, 10⟩ = .error "Truncated varint" ∧
    skipVarintBytes 12
        ⟨[] ++ [128, 128, 128, 128, 128, 128, 128, 128, 128, 128, 128] ++ 0 :: [],
         ([] : List Nat).length, 12⟩ =
      .ok ⟨[] ++ [128, 128, 128, 128, 128, 128, 128, 128, 128, 128, 128] ++ 0 :: [],
           ([] : List Nat).length + [(128 : Nat), 128, 128, 128, 128, 128, 128, 128, 128, 128, 128].length + 1, 12⟩ :=
  ⟨c9_varint_ten_byte_bound.1 [128, 129, 130, 131, 132, 133, 134, 135, 136, 137] [] [] 10
      (by decide) (by decide),
   c9_varint_ten_byte_bound.2 [128, 128, 128, 128, 128, 128, 128, 128, 128, 128, 128] [] [] 0 12 12
      (by decide) (by decide) (by decide)⟩

/-- C9 counterexample: decoding a message whose bytes contain an unknown
field of wire type VARINT whose varint payload runs for eleven bytes (ten
continuation bytes, then a terminator) succeeds — the generated skip loop
imposes no 10-byte bound, contradicting the claim that every varint
consumed during decode, the skipped ones included, is subject to it. -/
theorem c9_counterexample :
    decodeMessage ⟨[], [⟨"M", []⟩]⟩ 20 ⟨"M", []⟩
      [8, 128, 128, 128, 128, 128, 128, 128, 128, 128, 128, 0] = .ok [] := rfl

/-! ## C4 helpers: a declared repeated packable field under both encodings -/

theorem decodeLoop_repeated_single (s : Schema) (d : MessageDef) (f : FieldDef)
    (hfind : d.fields.find? (fun g => g.tag == f.tag) = some f)
    (hrep : f.repeated = true)
    (hel : (packableTypes s).contains f.type = true)
    (ht1 : 1 ≤ f.tag) (ht2 : f.tag < 2 ^ 29)
    (fuel wt : Nat) (m : Msg) (prev : List JsVal) (w : List Nat) (dv : JsVal)
    (pre post : List Nat)
    (hprev : jsGet m f.name = some (.vArr prev) ∨ (jsGet m f.name = none ∧ prev = []))
    (hread : readsExactly s f.type w dv)
    (hwt8 : wt < 8) (hwt2 : wt ≠ 2) :
    decodeLoop s (fuel + 1) d m
        ⟨pre ++ writeVarintN (8 * f.tag + wt) ++ (w ++ post), pre.length,
         (pre ++ writeVarintN (8 * f.tag + wt) ++ (w ++ post)).length⟩ =
      decodeLoop s fuel d (jsInsert m f.name (.vArr (prev ++ [dv])))
        ⟨pre ++ writeVarintN (8 * f.tag + wt) ++ (w ++ post),
         pre.length + (writeVarintN (8 * f.tag + wt)).length + w.length,
         (pre ++ writeVarintN (8 * f.tag + wt) ++ (w ++ post)).length⟩ := by
  have htagpos := writeVarintN_length_pos (8 * f.tag + wt)
  rw [decodeLoop_succ]
  rw [if_neg (by simp only [List.length_append]; omega)]
  rw [readVarintRaw_write (8 * f.tag + wt) pre (w ++ post) _
    (by have := pow_bound_varint; omega), exceptBind_ok]
  dsimp only
  have hu : (8 * f.tag + wt) % 2 ^ 32 = 8 * f.tag + wt := Nat.mod_eq_of_lt (by omega)
  have hdiv : (8 * f.tag + wt) / 8 = f.tag := by omega
  have hmod : (8 * f.tag + wt) % 8 = wt := by omega
  rw [hu, hdiv, hmod, if_neg (by omega), hfind]
  dsimp only
  rw [not_message_of_packable s f.type hel]
  rw [if_neg (by simp), if_pos hrep]
  rw [getValuesArr_of m f.name prev hprev, exceptBind_ok]
  rw [if_pos hel, if_neg hwt2]
  have e2 : pre.length + (writeVarintN (8 * f.tag + wt)).length
      = (pre ++ writeVarintN (8 * f.tag + wt)).length := by simp
  have e1 : pre ++ writeVarintN (8 * f.tag + wt) ++ (w ++ post)
      = (pre ++ writeVarintN (8 * f.tag + wt)) ++ w ++ post := by simp
  rw [e2, e1, hread (pre ++ writeVarintN (8 * f.tag + wt)) post _, exceptBind_ok]

theorem decodeLoop_repeated_packed (s : Schema) (d : MessageDef) (f : FieldDef)
    (hfind : d.fields.find? (fun g => g.tag == f.tag) = some f)
    (hrep : f.repeated = true)
    (hel : (packableTypes s).contains f.type = true)
    (ht1 : 1 ≤ f.tag) (ht2 : f.tag < 2 ^ 29)
    (fuel : Nat) (m : Msg) (prev ds : List JsVal) (ws : List (List Nat))
    (pre post : List Nat)
    (hprev : jsGet m f.name = some (.vArr prev) ∨ (jsGet m f.name = none ∧ prev = []))
    (hws : List.Forall₂ (fun w dv => readsExactly s f.type w dv ∧ w ≠ []) ws ds)
    (hfuel : ws.length + 1 ≤ fuel)
    (hplen : ws.flatten.length < 2 ^ 31) :
    decodeLoop s (fuel + 1) d m
        ⟨pre ++ writeVarintN (8 * f.tag + 2) ++
           (writeVarintN ws.flatten.length ++ (ws.flatten ++ post)), pre.length,
         (pre ++ writeVarintN (8 * f.tag + 2) ++
           (writeVarintN ws.flatten.length ++ (ws.flatten ++ post))).length⟩ =
      decodeLoop s fuel d (jsInsert m f.name (.vArr (prev ++ ds)))
        ⟨pre ++ writeVarintN (8 * f.tag + 2) ++
           (writeVarintN ws.flatten.length ++ (ws.flatten ++ post)),
         pre.length + (writeVarintN (8 * f.tag + 2)).length +
           (writeVarintN ws.flatten.length).length + ws.flatten.length,
         (pre ++ writeVarintN (8 * f.tag + 2) ++
           (writeVarintN ws.flatten.length ++ (ws.flatten ++ post))).length⟩ := by
  have htagpos := writeVarintN_length_pos (8 * f.tag + 2)
  rw [decodeLoop_succ]
  rw [if_neg (by simp only [List.length_append]; omega)]
  rw [readVarintRaw_write (8 * f.tag + 2) pre
    (writeVarintN ws.flatten.length ++ (ws.flatten ++ post)) _
    (by have := pow_bound_varint; omega), exceptBind_ok]
  dsimp only
  have hu : (8 * f.tag + 2) % 2 ^ 32 = 8 * f.tag + 2 := Nat.mod_eq_of_lt (by omega)
  have hdiv : (8 * f.tag + 2) / 8 = f.tag := by omega
  have hmod : (8 * f.tag + 2) % 8 = 2 := by omega
  rw [hu, hdiv, hmod, if_neg (by omega), hfind]
  dsimp only
  rw [not_message_of_packable s f.type hel]
  rw [if_neg (by simp), if_pos hrep]
  rw [getValuesArr_of m f.name prev hprev, exceptBind_ok]
  rw [if_pos hel, if_pos rfl]
  have e2 : pre.length + (writeVarintN (8 * f.tag + 2)).length
      = (pre ++ writeVarintN (8 * f.tag + 2)).length := by simp
  have e1 : pre ++ writeVarintN (8 * f.tag + 2) ++
      (writeVarintN ws.flatten.length ++ (ws.flatten ++ post))
      = (pre ++ writeVarintN (8 * f.tag + 2)) ++
        writeVarintN ws.flatten.length ++ (ws.flatten ++ post) := by simp
  rw [e2, e1, pushTemporaryLength_write ws.flatten.length
    (pre ++ writeVarintN (8 * f.tag + 2)) ws.flatten post _ hplen rfl, exceptBind_ok]
  dsimp only
  have e3 : (pre ++ writeVarintN (8 * f.tag + 2)).length +
      (writeVarintN ws.flatten.length).length
      = ((pre ++ writeVarintN (8 * f.tag + 2)) ++ writeVarintN ws.flatten.length).length :=
    (List.length_append _ _).symm
  have e4 : (pre ++ writeVarintN (8 * f.tag + 2)) ++ writeVarintN ws.flatten.length ++
      (ws.flatten ++ post)
      = ((pre ++ writeVarintN (8 * f.tag + 2)) ++ writeVarintN ws.flatten.length) ++
        ws.flatten ++ post := by simp
  rw [e3, e4, packedReadLoop_run s f.type ws ds hws []
    ((pre ++ writeVarintN (8 * f.tag + 2)) ++ writeVarintN ws.flatten.length) post fuel hfuel,
    exceptBind_ok]
  simp only [List.nil_append]

/-- C4: for a declared repeated field of pack-eligible type, the generated
decode accepts both encodings of the field number.  When the tag's wire-type
bits are LENGTH_DELIMITED it narrows to the declared payload length and
appends one element per tight element-encoding until that length is
exhausted; under any other wire type it appends exactly one element for the
tag occurrence.  Both forms extend the field's existing ordered sequence, so
repeated occurrences of the same tag grow the same sequence. -/
theorem c4_decode_both_forms (s : Schema) (d : MessageDef) (f : FieldDef)
    (hfind : d.fields.find? (fun g => g.tag == f.tag) = some f)
    (hrep : f.repeated = true)
    (hel : (packableTypes s).contains f.type = true)
    (ht1 : 1 ≤ f.tag) (ht2 : f.tag < 2 ^ 29) :
    (∀ (fuel : Nat) (m : Msg) (prev ds : List JsVal) (ws : List (List Nat))
       (pre post : List Nat),
      jsGet m f.name = some (.vArr prev) ∨ (jsGet m f.name = none ∧ prev = []) →
      List.Forall₂ (fun w dv => readsExactly s f.type w dv ∧ w ≠ []) ws ds →
      ws.length + 1 ≤ fuel → ws.flatten.length < 2 ^ 31 →
      decodeLoop s (fuel + 1) d m
          ⟨pre ++ writeVarintN (8 * f.tag + 2) ++
             (writeVarintN ws.flatten.length ++ (ws.flatten ++ post)), pre.length,
           (pre ++ writeVarintN (8 * f.tag + 2) ++
             (writeVarintN ws.flatten.length ++ (ws.flatten ++ post))).length⟩ =
        decodeLoop s fuel d (jsInsert m f.name (.vArr (prev ++ ds)))
          ⟨pre ++ writeVarintN (8 * f.tag + 2) ++
             (writeVarintN ws.flatten.length ++ (ws.flatten ++ post)),
           pre.length + (writeVarintN (8 * f.tag + 2)).length +
             (writeVarintN ws.flatten.length).length + ws.flatten.length,
           (pre ++ writeVarintN (8 * f.tag + 2) ++
             (writeVarintN ws.flatten.length ++ (ws.flatten ++ post))).length⟩) ∧
    (∀ (fuel wt : Nat) (m : Msg) (prev : List JsVal) (w : List Nat) (dv : JsVal)
       (pre post : List Nat),
      jsGet m f.name = some (.vArr prev) ∨ (jsGet m f.name = none ∧ prev = []) →
      readsExactly s f.type w dv → wt < 8 → wt ≠ 2 →
      decodeLoop s (fuel + 1) d m
          ⟨pre ++ writeVarintN (8 * f.tag + wt) ++ (w ++ post), pre.length,
           (pre ++ writeVarintN (8 * f.tag + wt) ++ (w ++ post)).length⟩ =
        decodeLoop s fuel d (jsInsert m f.name (.vArr (prev ++ [dv])))
          ⟨pre ++ writeVarintN (8 * f.tag + wt) ++ (w ++ post),
           pre.length + (writeVarintN (8 * f.tag + wt)).length + w.length,
           (pre ++ writeVarintN (8 * f.tag + wt) ++ (w ++ post)).length⟩) := by
  constructor
  · intro fuel m prev ds ws pre post hprev hws hfuel hplen
    exact decodeLoop_repeated_packed s d f hfind hrep hel ht1 ht2 fuel m prev ds ws pre post
      hprev hws hfuel hplen
  · intro fuel wt m prev w dv pre post hprev hread hwt8 hwt2
    exact decodeLoop_repeated_single s d f hfind hrep hel ht1 ht2 fuel wt m prev w dv pre post
      hprev hread hwt8 hwt2

/-- Witness for C4 at a repeated `uint32` field: the packed occurrence
`0a 02 05 06` appends 5 and 6, and the unpacked occurrence `08 07` appends
7 to the previously decoded elements. -/
theorem c4_decode_both_forms_witness :
    (decodeLoop {} 4 ⟨"M", [⟨"xs", "uint32", 1, false, true, {}⟩]⟩ []
        ⟨[] ++ writeVarintN (8 * 1 + 2) ++
           (writeVarintN ([[5], [6]] : List (List Nat)).flatten.length ++
             (([[5], [6]] : List (List Nat)).flatten ++ [])), ([] : List Nat).length,
         ([] ++ writeVarintN (8 * 1 + 2) ++
           (writeVarintN ([[5], [6]] : List (List Nat)).flatten.length ++
             (([[5], [6]] : List (List Nat)).flatten ++ []))).length⟩ =
      decodeLoop {} 3 ⟨"M", [⟨"xs", "uint32", 1, false, true, {}⟩]⟩
        (jsInsert [] "xs" (.vArr ([] ++ [.vInt 5, .vInt 6])))
        ⟨[] ++ writeVarintN (8 * 1 + 2) ++
           (writeVarintN ([[5], [6]] : List (List Nat)).flatten.length ++
             (([[5], [6]] : List (List Nat)).flatten ++ [])),
         ([] : List Nat).length + (writeVarintN (8 * 1 + 2)).length +
           (writeVarintN ([[5], [6]] : List (List Nat)).flatten.length).length +
           ([[5], [6]] : List (List Nat)).flatten.length,
         ([] ++ writeVarintN (8 * 1 + 2) ++
           (writeVarintN ([[5], [6]] : List (List Nat)).flatten.length ++
             (([[5], [6]] : List (List Nat)).flatten ++ []))).length⟩) ∧
    (decodeLoop {} 2 ⟨"M", [⟨"xs", "uint32", 1, false, true, {}⟩]⟩
        [("xs", .vArr [.vInt 5, .vInt 6])]
        ⟨[] ++ writeVarintN (8 * 1 + 0) ++ ([7] ++ []), ([] : List Nat).length,
         ([] ++ writeVarintN (8 * 1 + 0) ++ ([7] ++ [])).length⟩ =
      decodeLoop {} 1 ⟨"M", [⟨"xs", "uint32", 1, false, true, {}⟩]⟩
        (jsInsert [("xs", .vArr [.vInt 5, .vInt 6])] "xs"
          (.vArr ([.vInt 5, .vInt 6] ++ [.vInt 7])))
        ⟨[] ++ writeVarintN (8 * 1 + 0) ++ ([7] ++ []),
         ([] : List Nat).length + (writeVarintN (8 * 1 + 0)).length + ([7] : List Nat).length,
         ([] ++ writeVarintN (8 * 1 + 0) ++ ([7] ++ [])).length⟩) := by
  have h := c4_decode_both_forms {} ⟨"M", [⟨"xs", "uint32", 1, false, true, {}⟩]⟩
    ⟨"xs", "uint32", 1, false, true, {}⟩ rfl rfl (by rfl) (by decide) (by decide)
  constructor
  · exact h.1 3 [] [] [.vInt 5, .vInt 6] [[5], [6]] [] []
      (Or.inr ⟨rfl, rfl⟩)
      (List.Forall₂.cons
        ⟨readScalar_writeScalar {} "uint32" (.vInt 5) [5] (by rfl) (by rfl), by decide⟩
        (List.Forall₂.cons
          ⟨readScalar_writeScalar {} "uint32" (.vInt 6) [6] (by rfl) (by rfl), by decide⟩
          List.Forall₂.nil))
      (by decide) (by decide)
  · exact h.2 1 0 [("xs", .vArr [.vInt 5, .vInt 6])] [.vInt 5, .vInt 6] [7] (.vInt 7) [] []
      (Or.inl rfl)
      (readScalar_writeScalar {} "uint32" (.vInt 7) [7] (by rfl) (by rfl))
      (by decide) (by decide)
